import Mathlib

/-!
Verification development for the basicToDo backend (validation pipeline and
ToDo service layer).  Python strings are modelled as lists of characters
(ASCII fragment), machine behaviour is modelled with explicit state passing,
and fallible code returns `Except`.  Definitions are translated from
`src/backend/app`; the repository interface `ToDoRepositoryInterface`, which
the service imports but which is absent from the sources, is modelled from
the specification and marked as such.
-/

/-- Python strings, modelled as lists of characters. -/
abbrev Str := List Char

/-- Whitespace characters recognised by Python `str.strip()` / `int()`
(ASCII model: space, tab, newline, carriage return, vertical tab, form feed). -/
def isPySpace (c : Char) : Bool :=
  c == ' ' || c == '\t' || c == '\n' || c == '\r' || c == '\x0b' || c == '\x0c'

/-- Word characters of the regex class `\w` (ASCII model: alphanumerics and
underscore), used for the `\b` word boundaries of the injection regex. -/
def isWordChar (c : Char) : Bool :=
  c.isAlphanum || c == '_'

/-- Lowercasing of a string, character by character (models the effect of the
`(?i)` flag of the injection regex on its ASCII patterns). -/
def lowerStr (s : Str) : Str := s.map Char.toLower

/-- Removal of leading characters satisfying `p`, then of trailing ones:
models Python `str.strip()` (with `p = isPySpace`) and `str.strip('{}')`. -/
def stripBy (p : Char → Bool) (s : Str) : Str :=
  ((s.dropWhile p).reverse.dropWhile p).reverse

/-- Python `str.strip()` with no arguments. -/
def pyStrip (s : Str) : Str := stripBy isPySpace s

/-- Decidable prefix test on character lists. -/
def litPre : Str → Str → Bool
  | [], _ => true
  | _ :: _, [] => false
  | a :: t1, b :: t2 => a == b && litPre t1 t2

/-- Occurrence of `t` as a contiguous substring: models `re.search` for a
plain-text alternative such as `--` or `;`. -/
def seqScan (t : Str) : Str → Bool
  | [] => false
  | c :: rest => litPre t (c :: rest) || seqScan t rest

/-- Test that a position is a left word boundary given the previous character
(none at the start of the string). -/
def prevOk : Option Char → Bool
  | none => true
  | some c => !isWordChar c

/-- Test that the characters after a keyword occurrence form a right word
boundary (end of string, or a non-word character). -/
def wordAfterOk : Str → Bool
  | [] => true
  | c :: _ => !isWordChar c

/-- Test that `k` occurs at the head of the string and is followed by a right
word boundary. -/
def wordPre : Str → Str → Bool
  | [], l => wordAfterOk l
  | _ :: _, [] => false
  | a :: t1, b :: t2 => a == b && wordPre t1 t2

/-- Scan for a whole-word occurrence of `k` (models `\bk\b` under
`re.search`); `prev` is the character preceding the current position. -/
def wordScan (k : Str) : Option Char → Str → Bool
  | _, [] => false
  | prev, c :: rest => (prevOk prev && wordPre k (c :: rest)) || wordScan k (some c) rest

/-- Operator tokens of the injection regex, rejected anywhere in the input. -/
def opTokens : List Str := [['-', '-'], [';'], ['/', '*'], ['*', '/']]

/-- SQL keywords of the service-module regex `_SQL_INJECTION_RE` in
`todo_service.py` (whole-word alternatives; `exec(?:ute)?` contributes both
`exec` and `execute`; this variant has no `or`). -/
def kwService : List Str :=
  [ ['x','p','_','c','m','d','s','h','e','l','l'], ['d','r','o','p'],
    ['d','e','l','e','t','e'], ['i','n','s','e','r','t'],
    ['u','p','d','a','t','e'], ['e','x','e','c'],
    ['e','x','e','c','u','t','e'], ['u','n','i','o','n'],
    ['s','e','l','e','c','t'], ['s','h','u','t','d','o','w','n'],
    ['c','r','e','a','t','e'], ['a','l','t','e','r'],
    ['r','e','n','a','m','e'], ['t','r','u','n','c','a','t','e'],
    ['d','e','c','l','a','r','e'] ]

/-- SQL keywords of `InputSanitizer._SQL_INJECTION_RE`: the service keywords
plus the whole word `or` (written `OR` in the pattern; matching is
case-insensitive). -/
def kwSanitizer : List Str := kwService ++ [['o','r']]

/-- Search of the injection regex over an input string: true iff some operator
token occurs anywhere, or some keyword of `kws` occurs as a whole word, in the
lowercased input (models `re.search` with the `(?i)` flag). -/
def sqlInj (kws : List Str) (s : Str) : Bool :=
  let l := lowerStr s
  opTokens.any (fun t => seqScan t l) || kws.any (fun k => wordScan k none l)

/-- Service-level errors (`exceptions.py`): `validation` carries the message
of a `ToDoValidationError`; the other constructors model `ToDoNotFoundError`,
`ToDoAlreadyExistsError` and `ToDoRepositoryError`. -/
inductive SvcError where
  | validation (msg : Str)
  | notFound
  | alreadyExists
  | repoErr
  deriving Repr, DecidableEq

/-- Message of the sanitizer rejection, from
`f"Invalid characters or SQL keywords in input: {value!r}"` (the fixed text
followed by the offending value; the `repr` decoration is not modelled). -/
def injMsg (s : Str) : Str :=
  (r"Invalid characters or SQL keywords in input: ").toList ++ s

/-- Embeds `sanitize_text` from `todo_service.py`: `None` passes through,
an input matching the service injection regex raises `ToDoValidationError`,
otherwise the stripped string is returned. -/
def sanitize_text (v : Option Str) : Except SvcError (Option Str) :=
  match v with
  | none => Except.ok none
  | some s =>
    if sqlInj kwService s then Except.error (SvcError.validation (injMsg s))
    else Except.ok (some (pyStrip s))

/-- Embeds `InputSanitizer.validate` for string (and `None`) inputs: like
`sanitize_text` but with the sanitizer keyword list, which also contains
`or`.  The branch coercing non-string values via `str()` is not modelled:
every claim is about string inputs. -/
def InputSanitizer.validate (v : Option Str) : Except SvcError (Option Str) :=
  match v with
  | none => Except.ok none
  | some s =>
    if sqlInj kwSanitizer s then Except.error (SvcError.validation (injMsg s))
    else Except.ok (some (pyStrip s))

/-- Message of the missing-required-field rejection, from
`f"Invalid payload: {field_name} is required"`. -/
def reqMsg (fieldName : Str) : Str :=
  (r"Invalid payload: ").toList ++ fieldName ++ (r" is required").toList

/-- Python truthiness of an optional string: `None` and the empty string are
falsy. -/
def pyTruthyOptStr : Option Str → Bool
  | none => false
  | some s => !s.isEmpty

/-- Embeds `FieldValidator.validate_required`: sanitize, then reject an empty
or `None` result with a message naming the field. -/
def FieldValidator.validate_required (v : Option Str) (fieldName : Str) :
    Except SvcError Str :=
  match InputSanitizer.validate v with
  | Except.error e => Except.error e
  | Except.ok sanitized =>
    if pyTruthyOptStr sanitized then Except.ok (sanitized.getD [])
    else Except.error (SvcError.validation (reqMsg fieldName))

/-- Embeds `FieldValidator.validate_optional`: sanitize, mapping an empty or
`None` result to the empty string. -/
def FieldValidator.validate_optional (v : Option Str) : Except SvcError Str :=
  match InputSanitizer.validate v with
  | Except.error e => Except.error e
  | Except.ok sanitized =>
    if pyTruthyOptStr sanitized then Except.ok (sanitized.getD []) else Except.ok []

/-- Specification-side predicate: `t` occurs as a contiguous substring of `l`. -/
def HasSeq (t l : Str) : Prop := ∃ pre post, l = pre ++ t ++ post

/-- Specification-side predicate: the characters before a match position form
a left word boundary (empty, or ending in a non-word character). -/
def BreakL (pre : Str) : Prop := ∀ c, pre.getLast? = some c → isWordChar c = false

/-- Specification-side predicate: the characters after a match form a right
word boundary (empty, or starting with a non-word character). -/
def BreakR (post : Str) : Prop := ∀ c, post.head? = some c → isWordChar c = false

/-- Specification-side predicate: `k` occurs in `l` as a whole word. -/
def HasWord (k l : Str) : Prop :=
  ∃ pre post, l = pre ++ k ++ post ∧ BreakL pre ∧ BreakR post

/-- Left word boundary relative to a scan state: at the very start of the
scanned suffix the preceding character `prev` decides, otherwise the last
character before the match does. -/
def BreakLP (prev : Option Char) (pre : Str) : Prop :=
  (pre = [] ∧ prevOk prev = true) ∨
  (∃ c, pre.getLast? = some c ∧ isWordChar c = false)

/-- UUID values, modelled by their 128-bit integer value (Python `UUID.int`;
equality of UUIDs is equality of these integers). -/
abbrev Uuid := Nat

/-- Hexadecimal digit test of Python `int(x, 16)` (ASCII model: `0-9`,
`a-f`, `A-F`). -/
def isHexDig (c : Char) : Bool :=
  c.isDigit || ('a' ≤ c && c ≤ 'f') || ('A' ≤ c && c ≤ 'F')

/-- Value of a hexadecimal digit. -/
def hexVal (c : Char) : Nat :=
  if c.isDigit then c.toNat - 48
  else if 'a' ≤ c && c ≤ 'f' then c.toNat - 87
  else c.toNat - 55

/-- Accumulating left-to-right value of a hexadecimal digit string. -/
def hexFold (s : Str) : Nat :=
  s.foldl (fun a c => 16 * a + hexVal c) 0

/-- Validity of the continuation of a hexadecimal literal after its first
digit: further digits, with single underscores allowed between digits
(the digit-grouping rule of Python `int(x, 16)`). -/
def hexTail : Str → Bool
  | [] => true
  | c :: rest =>
    if c = '_' then
      match rest with
      | [] => false
      | c2 :: rest2 => isHexDig c2 && hexTail rest2
    else isHexDig c && hexTail rest

/-- Core of Python `int(x, 16)`: a non-empty digit string starting with a
digit, with single underscores between digits; its value ignores the
underscores. -/
def intHexCore (s : Str) : Option Nat :=
  match s with
  | [] => none
  | c :: rest =>
    if isHexDig c && hexTail rest then
      some (hexFold (s.filter (fun c2 => !(c2 == '_'))))
    else none

/-- Stage of `int(x, 16)` after an optional `0x`/`0X` prefix, where a single
leading underscore is also tolerated. -/
def intHexOx (s : Str) : Option Nat :=
  match s with
  | '_' :: rest => intHexCore rest
  | _ => intHexCore s

/-- Stage of `int(x, 16)` recognising an optional `0x`/`0X` prefix. -/
def intHexPfx (s : Str) : Option Nat :=
  match s with
  | '0' :: 'x' :: rest => intHexOx rest
  | '0' :: 'X' :: rest => intHexOx rest
  | _ => intHexCore s

/-- Model of Python `int(x, 16)` on the strings reachable from the UUID
pipeline: surrounding whitespace is stripped, a `+` sign and a `0x` prefix
are accepted, and a leading `-` is rejected (a negative value would fail the
`0 <= int < 1 << 128` range check of `UUID.__init__` anyway; hyphens have
been removed before this point, so the branch is unreachable there). -/
def intHex (s : Str) : Option Nat :=
  match stripBy isPySpace s with
  | '+' :: rest => intHexPfx rest
  | '-' :: _ => none
  | t => intHexPfx t

/-- Python `str.replace(t, '')` for a non-empty pattern `t`: removes all
non-overlapping occurrences of `t`, scanning left to right.  (For an empty
`t` this is the identity, a case never used.) -/
def replaceAllEmpty (t : Str) (s : Str) : Str :=
  match s with
  | [] => []
  | c :: rest =>
    if litPre t (c :: rest) then replaceAllEmpty t (rest.drop (t.length - 1))
    else c :: replaceAllEmpty t rest
termination_by s.length
decreasing_by
  · simp only [List.length_cons]
    have h1 : (rest.drop (t.length - 1)).length ≤ rest.length := by
      simp only [List.length_drop]; omega
    omega
  · simp

/-- Embeds the string branch of `uuid.UUID.__init__`: remove every `urn:`
and `uuid:`, strip surrounding braces, remove hyphens, require exactly 32
remaining characters, read them as a hexadecimal integer and range-check it.
Failure models the `ValueError` raised there. -/
def pyUuidParse (s : Str) : Option Uuid :=
  let h1 := replaceAllEmpty (['u','r','n',':']) s
  let h2 := replaceAllEmpty (['u','u','i','d',':']) h1
  let h3 := stripBy (fun c => c == '\x7b' || c == '\x7d') h2
  let h4 := h3.filter (fun c => !(c == '-'))
  if h4.length = 32 then
    match intHex h4 with
    | none => none
    | some n => if n < 2 ^ 128 then some n else none
  else none

/-- Message of the UUID rejection, from `f"Invalid UUID: {value}"`. -/
def uuidErrMsg (s : Str) : Str := (r"Invalid UUID: ").toList ++ s

/-- Embeds `UUIDValidator.validate`: a value that is already a UUID is
returned unchanged, any other value is parsed from its string form, and a
parse failure raises `ToDoValidationError`. -/
def UUIDValidator.validate : Sum Uuid Str → Except SvcError Uuid
  | Sum.inl u => Except.ok u
  | Sum.inr s =>
    match pyUuidParse s with
    | some n => Except.ok n
    | none => Except.error (SvcError.validation (uuidErrMsg s))

/-- Embeds the module-level `validate_uuid` of `todo_service.py`, which has
the same behaviour as `UUIDValidator.validate`. -/
def validate_uuid : Sum Uuid Str → Except SvcError Uuid
  | Sum.inl u => Except.ok u
  | Sum.inr s =>
    match pyUuidParse s with
    | some n => Except.ok n
    | none => Except.error (SvcError.validation (uuidErrMsg s))

/-- Lowercase hexadecimal digit characters, in value order. -/
def hexDigits : Str :=
  ['0','1','2','3','4','5','6','7','8','9'] ++ ['a','b','c','d','e','f']

/-- Character of a hexadecimal digit value (lowercase). -/
def hexDigitChar (m : Nat) : Char := hexDigits.getD m '0'

/-- Big-endian `k`-digit lowercase hexadecimal rendering of `n % 16^k`. -/
def hexPad : Nat → Nat → Str
  | 0, _ => []
  | k + 1, n => hexPad k (n / 16) ++ [hexDigitChar (n % 16)]

/-- The 32-digit hexadecimal form of a 128-bit value (the non-hyphenated
string form of a UUID). -/
def hex32 (n : Nat) : Str := hexPad 32 n

/-- The canonical hyphenated string form of a UUID (8-4-4-4-12 digit
groups). -/
def uuidHyph (n : Nat) : Str :=
  (hex32 n).take 8 ++ ['-'] ++ ((hex32 n).drop 8).take 4 ++ ['-'] ++
    ((hex32 n).drop 12).take 4 ++ ['-'] ++ ((hex32 n).drop 16).take 4 ++
    ['-'] ++ (hex32 n).drop 20

/-- The braced string form of a UUID. -/
def uuidBraced (n : Nat) : Str := '\x7b' :: uuidHyph n ++ ['\x7d']

/-- The URN-prefixed string form of a UUID. -/
def uuidUrn (n : Nat) : Str :=
  ['u','r','n',':','u','u','i','d',':'] ++ uuidHyph n

/-- Embeds the `ToDoEntryData` dataclass of `models/todo.py` (also the
persistent entity: `database.py` maps it imperatively onto the `toDo` table).
`title` and `description` are annotated `str` in the source but hold `None`
at runtime on some paths, hence `Option Str`; timestamps are abstract `Nat`
instants. -/
structure ToDoEntryData where
  id : Uuid
  title : Option Str
  description : Option Str
  created_at : Option Nat
  updated_at : Option Nat
  deleted : Bool := false
  done : Bool := false
  deriving Repr, DecidableEq

/-- Embeds the `TodoUpdateEntry` schema of `schemas/todo.py`
(`TodoUpdateScheme` in `schemas/data_schemes/update_todo_schema.py`): a
required id and optional `title`, `description`, `done`.  A `none` field
models a field that is absent from the request (exclude-unset semantics;
an explicit JSON `null` is identified with absence in this model). -/
structure TodoUpdateEntry where
  id : Uuid
  title : Option Str := none
  description : Option Str := none
  done : Option Bool := none
  deriving Repr, DecidableEq

/-- Embeds `ToDoEntryData.update` of `models/todo.py`.  The source iterates
over the given key/value pairs and skips a key when `not getattr(self, key)`
— that is, when the attribute's CURRENT value is falsy (its comment says
"do not set attributes that are not defined", but the code tests the value,
not definedness).  The pairs handed to it are the fields present in the
update payload (the dict glue between the service payload and this method is
absent from the sources; per the specification only present fields are
applied).  The `id` key is always present and a Python `UUID` object is
always truthy, so `id` is always overwritten; `created_at`, `updated_at` and
`deleted` never occur as keys. -/
def ToDoEntryData.update (e : ToDoEntryData) (p : TodoUpdateEntry) : ToDoEntryData :=
  { id := p.id
    title :=
      match p.title with
      | none => e.title
      | some t => if pyTruthyOptStr e.title then some t else e.title
    description :=
      match p.description with
      | none => e.description
      | some d => if pyTruthyOptStr e.description then some d else e.description
    done :=
      match p.done with
      | none => e.done
      | some b => if e.done then b else e.done
    created_at := e.created_at
    updated_at := e.updated_at
    deleted := e.deleted }

/-- Embeds the output representation `ToDoSchema` of `schemas/todo.py`. -/
structure ToDoSchema where
  id : Uuid
  title : Str
  description : Str
  created_at : Nat
  updated_at : Option Nat
  deleted : Bool := false
  done : Bool := false
  deriving Repr, DecidableEq

/-- Embeds `ToDoSchema.model_validate` on a `ToDoEntryData`: the field
validators of `schemas/todo.py` strip `title` and `description` and reject
them when empty, reject a missing `created_at`, and pass `id` through (a
`UUID` object is always truthy and `UUID(str(value))` always succeeds on
one).  `none` models the pydantic `ValidationError` raised on failure, which
is a distinct type from `ToDoValidationError`. -/
def ToDoSchema.model_validate (e : ToDoEntryData) : Option ToDoSchema :=
  match e.title, e.description, e.created_at with
  | some t, some d, some ca =>
    if pyStrip t = [] then none
    else if pyStrip d = [] then none
    else some { id := e.id, title := pyStrip t, description := pyStrip d,
                created_at := ca, updated_at := e.updated_at,
                deleted := e.deleted, done := e.done }
  | _, _, _ => none

/-- Stored state of the repository: the rows of the `toDo` table in
insertion order. -/
abbrev RepoState := List ToDoEntryData

/-- Modelled from the spec: lookup helper of the repository interface —
`get(id) -> entry or absent`, excluding entries with `deleted=true`
(`ToDoRepositoryInterface` is imported by `todo_service.py` but defined
nowhere in the sources; the `ToDoRepository` present under `src` is an older
variant whose constructor and method signatures match neither the service
nor `factory.py`). -/
def Repo.get_to_do_entry (st : RepoState) (i : Uuid) : Option ToDoEntryData :=
  st.find? (fun e => e.id == i && !e.deleted)

/-- Modelled from the spec: `create(entry) -> void`, failing with a
duplicate-key condition (an `IntegrityError`, modelled by `none`) when the
id already exists among stored rows, deleted or not. -/
def Repo.create_to_do (st : RepoState) (e : ToDoEntryData) : Option RepoState :=
  if st.any (fun x => x.id == e.id) then none else some (st ++ [e])

/-- Modelled from the spec: `update(id, partial_fields) -> updated entry or
absent-if-not-found`, excluding soft-deleted entries from being updatable.
The application of the present fields to the stored row is the source's
`ToDoEntryData.update`; following the cited `ToDoRepository.update_to_do`
(lines 63-88), no timestamp is written. -/
def Repo.update_to_do (st : RepoState) (i : Uuid) (p : TodoUpdateEntry) :
    Option (RepoState × ToDoEntryData) :=
  match st with
  | [] => none
  | e :: rest =>
    if e.id == i && !e.deleted then
      some (e.update p :: rest, e.update p)
    else
      match Repo.update_to_do rest i p with
      | none => none
      | some (st2, e2) => some (e :: st2, e2)

/-- Modelled from the spec: `soft_delete(id) -> true/false` — marks the entry
`deleted=true`, returning `false` if it is absent or already deleted. -/
def Repo.delete_to_do (st : RepoState) (i : Uuid) : RepoState × Bool :=
  match st with
  | [] => ([], false)
  | e :: rest =>
    if e.id == i && !e.deleted then
      ({ e with deleted := true } :: rest, true)
    else
      let (st2, b) := Repo.delete_to_do rest i
      (e :: st2, b)

/-- Embeds `ToDoRepository.get_all_to_do_entries`: offset `(page - 1) * limit`
then at most `limit` rows, in storage order (the source filters by nothing,
so deleted rows are not excluded here). -/
def Repo.get_all_to_do_entries (st : RepoState) (limit page : Nat) :
    List ToDoEntryData :=
  (st.drop ((page - 1) * limit)).take limit

/-- Embeds the `ToDoCreateEntry` schema of `schemas/todo.py`: a required
(already parsed) id and title, an optional description. -/
structure ToDoCreateEntry where
  id : Uuid
  title : Str
  description : Option Str := none
  deriving Repr, DecidableEq

/-- Embeds `create_entry_data_from_create_entry` of `todo_service.py`:
validates the id, sanitizes title and description, stamps `created_at` with
the current time and the remaining fields with their creation defaults. -/
def create_entry_data_from_create_entry (now : Nat) (p : ToDoCreateEntry) :
    Except SvcError ToDoEntryData := do
  let u ← validate_uuid (Sum.inl p.id)
  let t ← sanitize_text (some p.title)
  let d ← sanitize_text p.description
  pure { id := u, title := t, description := d, created_at := some now,
         updated_at := none, deleted := false, done := false }

/-- Replays the blanket `except ToDoValidationError as ve: raise
ToDoValidationError from ve` of the service methods: the re-raised error is a
fresh `ToDoValidationError` without a message. -/
def svcReraise : SvcError → SvcError
  | SvcError.validation _ => SvcError.validation []
  | e => e

/-- Embeds `ToDoService.create_todo`: sanitize title and description, build
the entry data (which sanitizes them again and validates the id), overwrite
the two fields with the first sanitization results, persist, and return the
validated output representation.  A duplicate id raises `AlreadyExists`, a
`ToDoValidationError` is re-raised without its message, and any other
failure — including the pydantic `ValidationError` of the output schema —
becomes `RepositoryError`. -/
def ToDoService.create_todo_try (st : RepoState) (now : Nat)
    (p : ToDoCreateEntry) : Except SvcError (RepoState × ToDoSchema) := do
  let t1 ← sanitize_text (some p.title)
  let d1 ← sanitize_text p.description
  let e0 ← create_entry_data_from_create_entry now p
  match Repo.create_to_do st { e0 with title := t1, description := d1 } with
  | none => throw SvcError.alreadyExists
  | some st2 =>
    match ToDoSchema.model_validate { e0 with title := t1, description := d1 } with
    | none => throw SvcError.repoErr
    | some sch => pure (st2, sch)

def ToDoService.create_todo (st : RepoState) (now : Nat) (p : ToDoCreateEntry) :
    Except SvcError (RepoState × ToDoSchema) :=
  (ToDoService.create_todo_try st now p).mapError svcReraise

/-- Embeds `ToDoService.get_todo`: the id is validated first and a failure
there propagates with its message (it is raised outside the inner `try`); an
absent entry raises `NotFound`; an output representation failing validation
is wrapped into `RepositoryError`. -/
def ToDoService.get_todo (st : RepoState) (i : Sum Uuid Str) :
    Except SvcError ToDoSchema := do
  let u ← validate_uuid i
  match Repo.get_to_do_entry st u with
  | none => throw SvcError.notFound
  | some e =>
    match ToDoSchema.model_validate e with
    | none => throw SvcError.repoErr
    | some sch => pure sch

/-- Embeds `ToDoService.update_todo`: sanitize the payload's title and
description, write the results back into the payload, delegate to the
repository, raise `NotFound` when it reports no entry, and validate the
updated entry for output, wrapping a pydantic failure into
`RepositoryError`; a `ToDoValidationError` is re-raised without its
message. -/
def ToDoService.update_todo_try (st : RepoState) (i : Uuid)
    (p : TodoUpdateEntry) : Except SvcError (RepoState × ToDoSchema) := do
  let t1 ← sanitize_text p.title
  let d1 ← sanitize_text p.description
  match Repo.update_to_do st i { p with title := t1, description := d1 } with
  | none => throw SvcError.notFound
  | some (st2, e2) =>
    match ToDoSchema.model_validate e2 with
    | none => throw SvcError.repoErr
    | some sch => pure (st2, sch)

def ToDoService.update_todo (st : RepoState) (i : Uuid) (p : TodoUpdateEntry) :
    Except SvcError (RepoState × ToDoSchema) :=
  (ToDoService.update_todo_try st i p).mapError svcReraise

/-- Embeds `ToDoService.delete_todo`: the id is validated inside the `try`
whose handlers are `except ToDoNotFoundError` and a catch-all `except
Exception` that wraps into `ToDoRepositoryError` — so the
`ToDoValidationError` of an invalid id surfaces as `RepositoryError`.  A
falsy repository result raises `NotFound`; otherwise `True` is returned. -/
def ToDoService.delete_todo (st : RepoState) (i : Sum Uuid Str) :
    Except SvcError (RepoState × Bool) :=
  match validate_uuid i with
  | Except.error _ => Except.error SvcError.repoErr
  | Except.ok u =>
    match Repo.delete_to_do st u with
    | (st2, true) => Except.ok (st2, true)
    | (_, false) => Except.error SvcError.notFound

/-- Embeds `ToDoService.get_all_todos`: fetch a page of raw entries and
convert each to its output representation, silently skipping entries whose
conversion raises a pydantic `ValidationError`. -/
def ToDoService.get_all_todos (st : RepoState) (limit page : Nat) :
    List ToDoSchema :=
  (Repo.get_all_to_do_entries st limit page).filterMap ToDoSchema.model_validate

/-- Embeds the `ToDoCreateScheme` input of the builder; `id` is `Option` so
the builder's defensive `payload.id is None` branch is representable, and it
may be a raw string form as accepted by `UUIDValidator`. -/
structure ToDoCreateScheme where
  id : Option (Sum Uuid Str)
  title : Option Str := none
  description : Option Str := none
  deriving DecidableEq

/-- Embeds `ToDoEntryBuilder.build_from_create_schema`: a `None` payload and
an absent id are rejected first (the latter before any validator call); then
the `ToDoEntryData` constructor arguments are evaluated in source order —
id via `UUIDValidator`, title via `validate_required`, description via
`validate_optional` — aborting at the first failure; `created_at` is the
current time captured once, `updated_at` is absent and the flags are false. -/
def ToDoEntryBuilder.build_from_create_schema (now : Nat)
    (payload : Option ToDoCreateScheme) : Except SvcError ToDoEntryData := do
  match payload with
  | none =>
    throw (SvcError.validation ((r"Invalid payload: payload cannot be None").toList))
  | some p =>
    match p.id with
    | none => throw (SvcError.validation (reqMsg (['i','d'])))
    | some idv => do
      let u ← UUIDValidator.validate idv
      let t ← FieldValidator.validate_required p.title (['t','i','t','l','e'])
      let d ← FieldValidator.validate_optional p.description
      pure { id := u, title := some t, description := some d,
             created_at := some now, updated_at := none,
             deleted := false, done := false }


/-- Lowercase hexadecimal digit class: the characters produced by `hexPad`. -/
def isLowerHex (c : Char) : Bool := c.isDigit || ('a' ≤ c && c ≤ 'f')

/-- Concrete stored entry for the mark-done evaluation: `done=false`. -/
def markDoneEntry : ToDoEntryData :=
  { id := 1, title := some (['T','e','s','t']),
    description := some (['D','e','s','c']), created_at := some 0,
    updated_at := none, deleted := false, done := false }

/-- Concrete partial payload carrying only `done=true`. -/
def markDonePayload : TodoUpdateEntry := { id := 1, done := some true }

/-- Concrete stored entry for the delete contract. -/
def delEntry : ToDoEntryData :=
  { id := 1, title := some (['T']), description := some (['D']),
    created_at := some 0, updated_at := none, deleted := false, done := false }

/-- Concrete stored entry for the C3 witness. -/
def frameEntry : ToDoEntryData :=
  { id := 1, title := some (['A']), description := some (['B']),
    created_at := some 3, updated_at := none, deleted := false, done := false }

/-- Concrete stored entry for the timestamp claims. -/
def tsEntry : ToDoEntryData :=
  { id := 1, title := some (['A']), description := some (['B']),
    created_at := some 5, updated_at := none, deleted := false, done := false }

/-- Well-formed stored entry for the C9 witness. -/
def listGoodEntry : ToDoEntryData :=
  { id := 2, title := some (['T']), description := some (['D']),
    created_at := some 0, updated_at := none, deleted := false, done := false }

/-- Stored entry with a blank description for the C9 witness. -/
def listBadEntry : ToDoEntryData :=
  { id := 3, title := some (['T']), description := some ([]),
    created_at := some 0, updated_at := none, deleted := false, done := false }

theorem getLast?_mem_chars {l : Str} {c : Char} (h : l.getLast? = some c) : c ∈ l := by
  induction l with
  | nil => simp at h
  | cons a t ih =>
    cases t with
    | nil => simp_all
    | cons b t2 =>
      rw [List.getLast?_cons_cons] at h
      exact List.mem_cons_of_mem a (ih h)

theorem head?_mem_chars {l : Str} {c : Char} (h : l.head? = some c) : c ∈ l := by
  cases l with
  | nil => simp at h
  | cons a t => simp at h; simp [h]

theorem litPre_iff {t l : Str} : litPre t l = true ↔ ∃ r, l = t ++ r := by
  induction t generalizing l with
  | nil => simp [litPre]
  | cons a t1 ih =>
    cases l with
    | nil => simp [litPre]
    | cons b l2 =>
      simp only [litPre, Bool.and_eq_true, beq_iff_eq, ih, List.cons_append,
        List.cons.injEq]
      constructor
      · rintro ⟨hab, r, hr⟩
        exact ⟨r, hab.symm, hr⟩
      · rintro ⟨r, hba, hr⟩
        exact ⟨hba.symm, r, hr⟩

theorem litPre_subset {t l : Str} (h : litPre t l = true) : ∀ c ∈ t, c ∈ l := by
  obtain ⟨r, hr⟩ := litPre_iff.mp h
  intro c hc
  subst hr
  exact List.mem_append_left r hc

theorem seqScan_iff {t l : Str} (ht : t ≠ []) :
    seqScan t l = true ↔ HasSeq t l := by
  induction l with
  | nil =>
    simp only [seqScan, Bool.false_eq_true, false_iff]
    rintro ⟨pre, post, hpp⟩
    have := congrArg List.length hpp
    simp at this
    rcases t with _ | ⟨a, t2⟩
    · exact ht rfl
    · simp at this
      omega
  | cons c rest ih =>
    simp only [seqScan, Bool.or_eq_true, litPre_iff, ih]
    constructor
    · rintro (⟨r, hr⟩ | ⟨pre, post, hpp⟩)
      · exact ⟨[], r, by simp [hr]⟩
      · exact ⟨c :: pre, post, by simp [hpp]⟩
    · rintro ⟨pre, post, hpp⟩
      cases pre with
      | nil =>
        exact Or.inl ⟨post, by simpa using hpp⟩
      | cons p pre2 =>
        simp only [List.cons_append, List.cons.injEq] at hpp
        exact Or.inr ⟨pre2, post, hpp.2⟩

theorem wordAfterOk_iff {l : Str} : wordAfterOk l = true ↔ BreakR l := by
  cases l with
  | nil => simp [wordAfterOk, BreakR]
  | cons c rest =>
    simp only [wordAfterOk, Bool.not_eq_true', BreakR, List.head?_cons]
    constructor
    · intro h c2 hc2
      cases hc2
      exact h
    · intro h
      exact h c rfl

theorem wordPre_iff {k l : Str} :
    wordPre k l = true ↔ ∃ r, l = k ++ r ∧ BreakR r := by
  induction k generalizing l with
  | nil =>
    simp only [wordPre, wordAfterOk_iff, List.nil_append]
    constructor
    · intro h
      exact ⟨l, rfl, h⟩
    · rintro ⟨r, hr, hbr⟩
      subst hr
      exact hbr
  | cons a k1 ih =>
    cases l with
    | nil => simp [wordPre]
    | cons b l2 =>
      simp only [wordPre, Bool.and_eq_true, beq_iff_eq, ih, List.cons_append,
        List.cons.injEq]
      constructor
      · rintro ⟨hab, r, hr, hbr⟩
        exact ⟨r, ⟨hab.symm, hr⟩, hbr⟩
      · rintro ⟨r, ⟨hba, hr⟩, hbr⟩
        exact ⟨hba.symm, r, hr, hbr⟩

theorem wordScan_iff {k : Str} (hk : k ≠ []) {prev : Option Char} {l : Str} :
    wordScan k prev l = true ↔
      ∃ pre post, l = pre ++ k ++ post ∧ BreakLP prev pre ∧ BreakR post := by
  induction l generalizing prev with
  | nil =>
    simp only [wordScan, Bool.false_eq_true, false_iff]
    rintro ⟨pre, post, hpp, _, _⟩
    have := congrArg List.length hpp
    simp at this
    rcases k with _ | ⟨a, k2⟩
    · exact hk rfl
    · simp at this
      omega
  | cons c rest ih =>
    simp only [wordScan, Bool.or_eq_true, Bool.and_eq_true, wordPre_iff, ih]
    constructor
    · rintro (⟨hprev, r, hr, hbr⟩ | ⟨pre, post, hpp, hbl, hbr⟩)
      · exact ⟨[], r, by simpa using hr, Or.inl ⟨rfl, hprev⟩, hbr⟩
      · refine ⟨c :: pre, post, by simp [hpp], ?_, hbr⟩
        rcases hbl with ⟨hpre, hc⟩ | ⟨c2, hlast, hc2⟩
        · subst hpre
          refine Or.inr ⟨c, by simp, ?_⟩
          simpa [prevOk] using hc
        · have hpre2 : pre ≠ [] := by
            intro hples
            subst hples
            simp at hlast
          refine Or.inr ⟨c2, ?_, hc2⟩
          cases pre with
          | nil => exact absurd rfl hpre2
          | cons q pre3 => rw [List.getLast?_cons_cons]; exact hlast
    · rintro ⟨pre, post, hpp, hbl, hbr⟩
      cases pre with
      | nil =>
        refine Or.inl ⟨?_, post, by simpa using hpp, hbr⟩
        rcases hbl with ⟨_, hprev⟩ | ⟨c2, hlast, _⟩
        · exact hprev
        · simp at hlast
      | cons p pre2 =>
        simp only [List.cons_append, List.cons.injEq] at hpp
        obtain ⟨hcp, hrest⟩ := hpp
        subst hcp
        refine Or.inr ⟨pre2, post, hrest, ?_, hbr⟩
        rcases hbl with ⟨habs, _⟩ | ⟨c2, hlast, hc2⟩
        · simp at habs
        · cases pre2 with
          | nil =>
            simp at hlast
            subst hlast
            exact Or.inl ⟨rfl, by simpa [prevOk] using hc2⟩
          | cons q pre3 =>
            rw [List.getLast?_cons_cons] at hlast
            exact Or.inr ⟨c2, hlast, hc2⟩

theorem wordScan_none_iff {k : Str} (hk : k ≠ []) {l : Str} :
    wordScan k none l = true ↔ HasWord k l := by
  rw [wordScan_iff hk]
  constructor
  · rintro ⟨pre, post, hpp, hbl, hbr⟩
    refine ⟨pre, post, hpp, ?_, hbr⟩
    rcases hbl with ⟨hpre, _⟩ | ⟨c2, hlast, hc2⟩
    · subst hpre
      intro c hc
      simp at hc
    · intro c hc
      rw [hlast] at hc
      cases hc
      exact hc2
  · rintro ⟨pre, post, hpp, hbl, hbr⟩
    refine ⟨pre, post, hpp, ?_, hbr⟩
    cases hpre : pre.getLast? with
    | none =>
      cases pre with
      | nil => exact Or.inl ⟨rfl, rfl⟩
      | cons q pre2 => simp [List.getLast?_eq_getLast] at hpre
    | some c2 => exact Or.inr ⟨c2, hpre, hbl c2 hpre⟩

theorem opTokens_ne_nil : ∀ t ∈ opTokens, t ≠ [] := by decide

theorem kwSanitizer_ne_nil : ∀ k ∈ kwSanitizer, k ≠ [] := by decide

theorem kwService_ne_nil : ∀ k ∈ kwService, k ≠ [] := by decide

theorem sqlInj_true_iff {kws : List Str} (hkw : ∀ k ∈ kws, k ≠ []) {s : Str} :
    sqlInj kws s = true ↔
      (∃ t ∈ opTokens, HasSeq t (lowerStr s)) ∨
        (∃ k ∈ kws, HasWord k (lowerStr s)) := by
  simp only [sqlInj, Bool.or_eq_true, List.any_eq_true]
  constructor
  · rintro (⟨t, ht, hscan⟩ | ⟨k, hkm, hscan⟩)
    · exact Or.inl ⟨t, ht, (seqScan_iff (opTokens_ne_nil t ht)).mp hscan⟩
    · exact Or.inr ⟨k, hkm, (wordScan_none_iff (hkw k hkm)).mp hscan⟩
  · rintro (⟨t, ht, hhas⟩ | ⟨k, hkm, hhas⟩)
    · exact Or.inl ⟨t, ht, (seqScan_iff (opTokens_ne_nil t ht)).mpr hhas⟩
    · exact Or.inr ⟨k, hkm, (wordScan_none_iff (hkw k hkm)).mpr hhas⟩

theorem sqlInj_false_iff {kws : List Str} (hkw : ∀ k ∈ kws, k ≠ []) {s : Str} :
    sqlInj kws s = false ↔
      (∀ t ∈ opTokens, ¬HasSeq t (lowerStr s)) ∧
        (∀ k ∈ kws, ¬HasWord k (lowerStr s)) := by
  rw [← Bool.not_eq_true, sqlInj_true_iff hkw]
  push_neg
  tauto

theorem dropWhile_head_false {p : Char → Bool} {s : Str} :
    ∀ c, (s.dropWhile p).head? = some c → p c = false := by
  induction s with
  | nil => simp
  | cons a rest ih =>
    intro c hc
    rw [List.dropWhile_cons] at hc
    by_cases hpa : p a = true
    · exact ih c (by simpa [hpa] using hc)
    · simp only [Bool.not_eq_true] at hpa
      simp [hpa] at hc
      rw [← hc]
      exact hpa

theorem dropWhile_eq_self_of_head {p : Char → Bool} {s : Str}
    (h : ∀ c, s.head? = some c → p c = false) : s.dropWhile p = s := by
  cases s with
  | nil => rfl
  | cons a rest =>
    rw [List.dropWhile_cons, if_neg]
    simp [h a rfl]

theorem stripBy_append_back (p : Char → Bool) (s : Str) :
    ∃ b, s.dropWhile p = stripBy p s ++ b ∧ (∀ c ∈ b, p c = true) := by
  refine ⟨((s.dropWhile p).reverse.takeWhile p).reverse, ?_, ?_⟩
  · have h1 : (s.dropWhile p).reverse =
        (s.dropWhile p).reverse.takeWhile p ++ (s.dropWhile p).reverse.dropWhile p :=
      (List.takeWhile_append_dropWhile p ((s.dropWhile p).reverse)).symm
    have h2 := congrArg List.reverse h1
    rw [List.reverse_reverse, List.reverse_append] at h2
    simpa [stripBy] using h2
  · intro c hc
    rw [List.mem_reverse] at hc
    exact List.mem_takeWhile_imp hc

theorem stripBy_decomp (p : Char → Bool) (s : Str) :
    ∃ a b, s = a ++ stripBy p s ++ b ∧ (∀ c ∈ a, p c = true) ∧
      (∀ c ∈ b, p c = true) := by
  obtain ⟨b, hb, hbp⟩ := stripBy_append_back p s
  refine ⟨s.takeWhile p, b, ?_, ?_, hbp⟩
  · have h0 : s = s.takeWhile p ++ s.dropWhile p :=
      (List.takeWhile_append_dropWhile p s).symm
    conv_lhs => rw [h0]
    rw [hb, List.append_assoc]
  · intro c hc
    exact List.mem_takeWhile_imp hc

theorem stripBy_eq_self_of_ends {p : Char → Bool} {s : Str}
    (hh : ∀ c, s.head? = some c → p c = false)
    (hl : ∀ c, s.getLast? = some c → p c = false) : stripBy p s = s := by
  unfold stripBy
  rw [dropWhile_eq_self_of_head hh, dropWhile_eq_self_of_head
    (by intro c hc; rw [List.head?_reverse] at hc; exact hl c hc),
    List.reverse_reverse]

theorem stripBy_eq_self_of_all {p : Char → Bool} {s : Str}
    (h : ∀ c ∈ s, p c = false) : stripBy p s = s :=
  stripBy_eq_self_of_ends (fun c hc => h c (head?_mem_chars hc))
    (fun c hc => h c (getLast?_mem_chars hc))

theorem stripBy_head_false {p : Char → Bool} {s : Str} :
    ∀ c, (stripBy p s).head? = some c → p c = false := by
  intro c hc
  obtain ⟨b, hb, _⟩ := stripBy_append_back p s
  apply dropWhile_head_false (p := p) (s := s) c
  rw [hb]
  rcases hsp : stripBy p s with _ | ⟨x, xs⟩
  · rw [hsp] at hc
    simp at hc
  · rw [hsp] at hc
    simp at hc
    simp [hc]

theorem stripBy_getLast_false {p : Char → Bool} {s : Str} :
    ∀ c, (stripBy p s).getLast? = some c → p c = false := by
  intro c hc
  unfold stripBy at hc
  rw [List.getLast?_reverse] at hc
  exact dropWhile_head_false c hc

theorem stripBy_idem (p : Char → Bool) (s : Str) :
    stripBy p (stripBy p s) = stripBy p s :=
  stripBy_eq_self_of_ends stripBy_head_false stripBy_getLast_false

theorem beq_false_of_toNat_ne {c d : Char} (h : c.toNat ≠ d.toNat) :
    (c == d) = false := by
  apply beq_eq_false_iff_ne.mpr
  intro hEq
  exact h (congrArg Char.toNat hEq)

theorem isPySpace_false_of_ge65 (d : Char) (hd : 65 ≤ d.toNat) :
    isPySpace d = false := by
  have hne : ∀ e : Char, e.toNat < 65 → (d == e) = false := by
    intro e he
    apply beq_false_of_toNat_ne
    omega
  unfold isPySpace
  rw [hne ' ' (by decide), hne '\t' (by decide), hne '\n' (by decide),
    hne '\r' (by decide), hne '\x0b' (by decide), hne '\x0c' (by decide)]
  rfl

theorem isPySpace_toLower (c : Char) :
    isPySpace (Char.toLower c) = isPySpace c := by
  unfold Char.toLower
  by_cases h : 65 ≤ c.toNat ∧ c.toNat ≤ 90
  · have h2 : c.toNat ≥ 65 ∧ c.toNat ≤ 90 := h
    rw [if_pos h2]
    have hv : (c.toNat + 32).isValidChar := Or.inl (by omega)
    have ht : (Char.ofNat (c.toNat + 32)).toNat = c.toNat + 32 := by
      rw [Char.ofNat, dif_pos hv]
      rfl
    rw [isPySpace_false_of_ge65 _ (by omega), isPySpace_false_of_ge65 c (by omega)]
  · have h2 : ¬(c.toNat ≥ 65 ∧ c.toNat ≤ 90) := h
    rw [if_neg h2]

theorem isPySpace_not_word {c : Char} (h : isPySpace c = true) :
    isWordChar c = false := by
  simp only [isPySpace, Bool.or_eq_true, beq_iff_eq] at h
  rcases h with ((((h | h) | h) | h) | h) | h <;> subst h <;> decide

theorem map_stripBy (f : Char → Char) (p : Char → Bool)
    (hp : ∀ c, p (f c) = p c) (s : Str) :
    (stripBy p s).map f = stripBy p (s.map f) := by
  have hcomp : (p ∘ f) = p := funext hp
  unfold stripBy
  rw [List.dropWhile_map, hcomp, ← List.map_reverse, List.dropWhile_map, hcomp,
    ← List.map_reverse]

theorem lowerStr_pyStrip (s : Str) :
    lowerStr (pyStrip s) = pyStrip (lowerStr s) := by
  unfold lowerStr pyStrip
  exact map_stripBy Char.toLower isPySpace isPySpace_toLower s

theorem hasSeq_of_strip {t l : Str} {p : Char → Bool}
    (h : HasSeq t (stripBy p l)) : HasSeq t l := by
  obtain ⟨a, b, hl, _, _⟩ := stripBy_decomp p l
  obtain ⟨pre, post, hpp⟩ := h
  exact ⟨a ++ pre, post ++ b, by rw [hl, hpp]; simp⟩

theorem hasWord_of_strip {k l : Str}
    (h : HasWord k (stripBy isPySpace l)) : HasWord k l := by
  obtain ⟨a, b, hl, ha, hb⟩ := stripBy_decomp isPySpace l
  obtain ⟨pre, post, hpp, hbl, hbr⟩ := h
  refine ⟨a ++ pre, post ++ b, by rw [hl, hpp]; simp, ?_, ?_⟩
  · intro c hc
    cases pre with
    | nil =>
      rw [List.append_nil] at hc
      exact isPySpace_not_word (ha c (getLast?_mem_chars hc))
    | cons q pre2 =>
      rw [List.getLast?_append] at hc
      rcases hql : (q :: pre2).getLast? with _ | x
      · simp [List.getLast?_cons] at hql
      · rw [hql] at hc
        simp at hc
        exact hbl c (hql.trans (by rw [hc]))
  · intro c hc
    cases post with
    | nil =>
      rw [List.nil_append] at hc
      exact isPySpace_not_word (hb c (head?_mem_chars hc))
    | cons x post2 =>
      simp only [List.cons_append, List.head?_cons, Option.some.injEq] at hc
      exact hc ▸ hbr x rfl

theorem sqlInj_pyStrip_false {kws : List Str} (hkw : ∀ k ∈ kws, k ≠ [])
    {s : Str} (h : sqlInj kws s = false) : sqlInj kws (pyStrip s) = false := by
  rw [sqlInj_false_iff hkw] at h ⊢
  obtain ⟨hop, hword⟩ := h
  constructor
  · intro t ht hseq
    apply hop t ht
    rw [lowerStr_pyStrip] at hseq
    exact hasSeq_of_strip hseq
  · intro k hk hw
    apply hword k hk
    rw [lowerStr_pyStrip] at hw
    exact hasWord_of_strip hw

theorem lowerHex_ne {c : Char} (hc : isLowerHex c = true) (e : Char)
    (he : isLowerHex e = false) : c ≠ e := by
  intro h
  subst h
  rw [hc] at he
  cases he

theorem lowerHex_not_space {c : Char} (hc : isLowerHex c = true) :
    isPySpace c = false := by
  cases hsp : isPySpace c with
  | false => rfl
  | true =>
    simp only [isPySpace, Bool.or_eq_true, beq_iff_eq] at hsp
    rcases hsp with ((((h | h) | h) | h) | h) | h <;> subst h <;>
      simp [isLowerHex, Char.isDigit] at hc

theorem lowerHex_isHexDig {c : Char} (hc : isLowerHex c = true) :
    isHexDig c = true := by
  simp only [isLowerHex, Bool.or_eq_true] at hc
  simp only [isHexDig, Bool.or_eq_true]
  tauto

theorem hexDigitChar_lowerHex {m : Nat} (hm : m < 16) :
    isLowerHex (hexDigitChar m) = true := by
  interval_cases m <;> decide

theorem hexVal_hexDigitChar {m : Nat} (hm : m < 16) :
    hexVal (hexDigitChar m) = m := by
  interval_cases m <;> decide

theorem hexPad_length (k n : Nat) : (hexPad k n).length = k := by
  induction k generalizing n with
  | zero => rfl
  | succ k2 ih => simp [hexPad, ih]

theorem hexPad_chars (k n : Nat) : ∀ c ∈ hexPad k n, isLowerHex c = true := by
  induction k generalizing n with
  | zero => simp [hexPad]
  | succ k2 ih =>
    intro c hc
    simp only [hexPad, List.mem_append, List.mem_singleton] at hc
    rcases hc with hc | hc
    · exact ih (n / 16) c hc
    · subst hc
      exact hexDigitChar_lowerHex (Nat.mod_lt n (by norm_num))

theorem hexModStep (n k : Nat) :
    n % 16 ^ (k + 1) = 16 * (n / 16 % 16 ^ k) + n % 16 := by
  have hP : 0 < 16 ^ k := pow_pos (by norm_num) k
  have e1 : n = 16 * (n / 16) + n % 16 := (Nat.div_add_mod n 16).symm
  have e2 : n / 16 = 16 ^ k * (n / 16 / 16 ^ k) + n / 16 % 16 ^ k :=
    (Nat.div_add_mod (n / 16) (16 ^ k)).symm
  have hb : n / 16 % 16 ^ k < 16 ^ k := Nat.mod_lt _ hP
  have hr : n % 16 < 16 := Nat.mod_lt n (by norm_num)
  have hpow : 16 ^ (k + 1) = 16 * 16 ^ k := by ring
  have e3 : n = 16 ^ (k + 1) * (n / 16 / 16 ^ k) +
      (16 * (n / 16 % 16 ^ k) + n % 16) := by
    conv_lhs => rw [e1]
    conv_lhs => rw [e2]
    rw [hpow]
    ring
  have hlt : 16 * (n / 16 % 16 ^ k) + n % 16 < 16 ^ (k + 1) := by
    have h1 : 16 * (n / 16 % 16 ^ k) + n % 16 < 16 * (n / 16 % 16 ^ k + 1) := by
      omega
    have h2 : 16 * (n / 16 % 16 ^ k + 1) ≤ 16 * 16 ^ k :=
      Nat.mul_le_mul_left 16 (by omega)
    omega
  conv_lhs => rw [e3]
  rw [Nat.mul_add_mod, Nat.mod_eq_of_lt hlt]

theorem hexFold_hexPad_aux (k : Nat) :
    ∀ n acc, List.foldl (fun a c => 16 * a + hexVal c) acc (hexPad k n) =
      acc * 16 ^ k + n % 16 ^ k := by
  induction k with
  | zero =>
    intro n acc
    simp [hexPad, Nat.mod_one]
  | succ k2 ih =>
    intro n acc
    simp only [hexPad, List.foldl_append, List.foldl_cons, List.foldl_nil]
    rw [ih (n / 16) acc, hexVal_hexDigitChar (Nat.mod_lt n (by norm_num)),
      hexModStep]
    ring

theorem hexFold_hex32 {n : Nat} (hn : n < 2 ^ 128) : hexFold (hex32 n) = n := by
  unfold hexFold hex32
  rw [hexFold_hexPad_aux 32 n 0]
  have h1 : (16 : Nat) ^ 32 = 2 ^ 128 := by norm_num
  rw [h1, Nat.zero_mul, Nat.zero_add, Nat.mod_eq_of_lt hn]

theorem hexTail_of_lowerHex {s : Str} (h : ∀ c ∈ s, isLowerHex c = true) :
    hexTail s = true := by
  induction s with
  | nil => rfl
  | cons c rest ih =>
    have hc := h c (by simp)
    have hne : c ≠ '_' := lowerHex_ne hc '_' (by decide)
    rw [hexTail.eq_def]
    simp only [hne, if_false, Bool.and_eq_true, reduceIte]
    exact ⟨lowerHex_isHexDig hc, ih (fun c2 hc2 => h c2 (by simp [hc2]))⟩

theorem filter_no_underscore {s : Str} (h : ∀ c ∈ s, isLowerHex c = true) :
    s.filter (fun c2 => !(c2 == '_')) = s := by
  apply List.filter_eq_self.mpr
  intro a ha
  simpa using lowerHex_ne (h a ha) '_' (by decide)

theorem intHex_of_lowerHex {s : Str} (hne : s ≠ [])
    (h : ∀ c ∈ s, isLowerHex c = true) : intHex s = some (hexFold s) := by
  have hstrip : stripBy isPySpace s = s :=
    stripBy_eq_self_of_all (fun c hc => lowerHex_not_space (h c hc))
  unfold intHex
  rw [hstrip]
  rcases s with _ | ⟨c, rest⟩
  · exact absurd rfl hne
  have hc := h c (by simp)
  have hcore : intHexCore (c :: rest) = some (hexFold (c :: rest)) := by
    have heq : intHexCore (c :: rest) =
        if (isHexDig c && hexTail rest) = true then
          some (hexFold ((c :: rest).filter (fun c2 => !(c2 == '_'))))
        else none := rfl
    rw [heq, if_pos, filter_no_underscore h]
    rw [Bool.and_eq_true]
    exact ⟨lowerHex_isHexDig hc,
      hexTail_of_lowerHex (fun c2 hc2 => h c2 (by simp [hc2]))⟩
  have hpfx : intHexPfx (c :: rest) = some (hexFold (c :: rest)) := by
    unfold intHexPfx
    split
    · rename_i rest2 heq
      rw [List.cons.injEq] at heq
      have hx : 'x' ∈ c :: rest := by
        rw [heq.2]
        simp
      exact absurd rfl ((lowerHex_ne (h 'x' hx) 'x' (by decide)))
    · rename_i rest2 heq
      rw [List.cons.injEq] at heq
      have hx : 'X' ∈ c :: rest := by
        rw [heq.2]
        simp
      exact absurd rfl ((lowerHex_ne (h 'X' hx) 'X' (by decide)))
    · exact hcore
  split
  · rename_i rest2 heq
    rw [List.cons.injEq] at heq
    exact absurd heq.1 (lowerHex_ne hc '+' (by decide))
  · rename_i rest2 heq
    rw [List.cons.injEq] at heq
    exact absurd heq.1 (lowerHex_ne hc '-' (by decide))
  · exact hpfx

theorem replaceAll_of_missing {t : Str} {c : Char} (hct : c ∈ t) :
    ∀ {s : Str}, c ∉ s → replaceAllEmpty t s = s := by
  intro s
  induction s with
  | nil =>
    intro _
    rw [replaceAllEmpty]
  | cons a rest ih =>
    intro hcs
    rw [replaceAllEmpty]
    have hlp : litPre t (a :: rest) = false := by
      cases hl : litPre t (a :: rest) with
      | false => rfl
      | true => exact absurd (litPre_subset hl c hct) hcs
    rw [if_neg (by simp [hlp])]
    rw [ih (fun hm => hcs (List.mem_cons_of_mem a hm))]

theorem replaceAll_cons_self {t rest : Str} (ht : t ≠ []) :
    replaceAllEmpty t (t ++ rest) = replaceAllEmpty t rest := by
  rcases t with _ | ⟨a, t2⟩
  · exact absurd rfl ht
  show replaceAllEmpty (a :: t2) (a :: (t2 ++ rest)) = _
  rw [replaceAllEmpty]
  have hlp : litPre (a :: t2) (a :: (t2 ++ rest)) = true :=
    litPre_iff.mpr ⟨rest, by simp⟩
  rw [if_pos (by simp [hlp])]
  have hlen : (a :: t2).length - 1 = t2.length := by simp
  rw [hlen, List.drop_left]

theorem uuidHyph_chars (n : Nat) :
    ∀ c ∈ uuidHyph n, isLowerHex c = true ∨ c = '-' := by
  intro c hc
  unfold uuidHyph at hc
  simp only [List.mem_append, List.mem_singleton] at hc
  rcases hc with ((((((((hc | hc) | hc) | hc) | hc) | hc) | hc) | hc) | hc)
  · exact Or.inl (hexPad_chars 32 n c (List.take_subset 8 _ hc))
  · exact Or.inr hc
  · exact Or.inl (hexPad_chars 32 n c (List.take_subset 4 _ (by exact hc) |>
      List.drop_subset 8 _))
  · exact Or.inr hc
  · exact Or.inl (hexPad_chars 32 n c (List.take_subset 4 _ (by exact hc) |>
      List.drop_subset 12 _))
  · exact Or.inr hc
  · exact Or.inl (hexPad_chars 32 n c (List.take_subset 4 _ (by exact hc) |>
      List.drop_subset 16 _))
  · exact Or.inr hc
  · exact Or.inl (hexPad_chars 32 n c (List.drop_subset 20 _ hc))

theorem filter_hyph (n : Nat) :
    (uuidHyph n).filter (fun c => !(c == '-')) = hex32 n := by
  unfold uuidHyph
  have hid : ∀ l : Str, (∀ c ∈ l, isLowerHex c = true) →
      l.filter (fun c => !(c == '-')) = l := by
    intro l hl
    apply List.filter_eq_self.mpr
    intro a ha
    simpa using lowerHex_ne (hl a ha) '-' (by decide)
  simp only [List.filter_append]
  rw [hid ((hex32 n).take 8) (fun c hc => hexPad_chars 32 n c (List.take_subset 8 _ hc)),
    hid (((hex32 n).drop 8).take 4) (fun c hc => hexPad_chars 32 n c
      (List.drop_subset 8 _ (List.take_subset 4 _ hc))),
    hid (((hex32 n).drop 12).take 4) (fun c hc => hexPad_chars 32 n c
      (List.drop_subset 12 _ (List.take_subset 4 _ hc))),
    hid (((hex32 n).drop 16).take 4) (fun c hc => hexPad_chars 32 n c
      (List.drop_subset 16 _ (List.take_subset 4 _ hc))),
    hid ((hex32 n).drop 20) (fun c hc => hexPad_chars 32 n c (List.drop_subset 20 _ hc))]
  have hneg : (['-'] : Str).filter (fun c => !(c == '-')) = [] := by decide
  rw [hneg]
  simp only [List.nil_append, List.append_nil]
  have hsplit : ∀ (m k : Nat) (l : Str), l.drop m = (l.drop m).take k ++ l.drop (m + k) := by
    intro m k l
    conv_lhs => rw [← List.take_append_drop k (l.drop m)]
    rw [List.drop_drop]
  have h8 : hex32 n = (hex32 n).take 8 ++ (hex32 n).drop 8 :=
    (List.take_append_drop 8 (hex32 n)).symm
  have h12 : (hex32 n).drop 8 = ((hex32 n).drop 8).take 4 ++ (hex32 n).drop 12 :=
    hsplit 8 4 (hex32 n)
  have h16 : (hex32 n).drop 12 = ((hex32 n).drop 12).take 4 ++ (hex32 n).drop 16 :=
    hsplit 12 4 (hex32 n)
  have h20 : (hex32 n).drop 16 = ((hex32 n).drop 16).take 4 ++ (hex32 n).drop 20 :=
    hsplit 16 4 (hex32 n)
  conv_rhs => rw [h8, h12, h16, h20]
  simp [List.append_assoc]

theorem hex32_chars (n : Nat) : ∀ c ∈ hex32 n, isLowerHex c = true :=
  hexPad_chars 32 n

theorem hex32_ne_nil (n : Nat) : hex32 n ≠ [] := by
  intro h
  have h2 := congrArg List.length h
  have h3 : (hex32 n).length = 32 := hexPad_length 32 n
  rw [h3] at h2
  simp at h2

theorem notMem_of_all_ne {l : Str} {e : Char}
    (h : ∀ c ∈ l, c ≠ e) : e ∉ l := fun hm => h e hm rfl

theorem hex32_notMem {n : Nat} {e : Char} (he : isLowerHex e = false) :
    e ∉ hex32 n :=
  notMem_of_all_ne (fun c hc => lowerHex_ne (hex32_chars n c hc) e he)

theorem uuidHyph_notMem {n : Nat} {e : Char} (he : isLowerHex e = false)
    (hd : e ≠ '-') : e ∉ uuidHyph n := by
  apply notMem_of_all_ne
  intro c hc
  rcases uuidHyph_chars n c hc with h | h
  · exact lowerHex_ne h e he
  · subst h
    exact fun h2 => hd h2.symm

theorem uuidHyph_ne_nil (n : Nat) : uuidHyph n ≠ [] := by
  have hm : '-' ∈ uuidHyph n := by
    unfold uuidHyph
    simp
  exact List.ne_nil_of_mem hm

theorem braceP_false_of_lowerHex {c : Char} (h : isLowerHex c = true) :
    (c == '\x7b' || c == '\x7d') = false := by
  rw [beq_eq_false_iff_ne.mpr (lowerHex_ne h '\x7b' (by decide)),
    beq_eq_false_iff_ne.mpr (lowerHex_ne h '\x7d' (by decide))]
  rfl

theorem braceP_false_of_hyph (n : Nat) :
    ∀ c ∈ uuidHyph n, (c == '\x7b' || c == '\x7d') = false := by
  intro c hc
  rcases uuidHyph_chars n c hc with h | h
  · rw [beq_eq_false_iff_ne.mpr (lowerHex_ne h '\x7b' (by decide)),
      beq_eq_false_iff_ne.mpr (lowerHex_ne h '\x7d' (by decide))]
    rfl
  · subst h
    decide

theorem stripBy_sandwich {p : Char → Bool} {a b : Char} {s : Str} (hne : s ≠ [])
    (hpa : p a = true) (hpb : p b = true) (hs : ∀ c ∈ s, p c = false) :
    stripBy p (a :: (s ++ [b])) = s := by
  unfold stripBy
  rw [List.dropWhile_cons, if_pos hpa]
  have h1 : (s ++ [b]).dropWhile p = s ++ [b] := by
    apply dropWhile_eq_self_of_head
    intro c hc
    rcases s with _ | ⟨x, xs⟩
    · exact absurd rfl hne
    · simp only [List.cons_append, List.head?_cons, Option.some.injEq] at hc
      exact hc ▸ hs x (by simp)
  rw [h1, List.reverse_append, List.reverse_singleton, List.singleton_append,
    List.dropWhile_cons, if_pos hpb]
  rw [dropWhile_eq_self_of_head (by
    intro c hc
    rw [List.head?_reverse] at hc
    exact hs c (getLast?_mem_chars hc))]
  rw [List.reverse_reverse]

theorem pyUuidParse_of_stages {s : Str} {n : Nat} (hn : n < 2 ^ 128)
    (h : ((stripBy (fun c => c == '\x7b' || c == '\x7d')
      (replaceAllEmpty (['u','u','i','d',':'])
        (replaceAllEmpty (['u','r','n',':']) s))).filter
          (fun c => !(c == '-'))) = hex32 n) :
    pyUuidParse s = some n := by
  unfold pyUuidParse
  simp only []
  rw [h]
  rw [show (hex32 n).length = 32 from hexPad_length 32 n, if_pos rfl,
    intHex_of_lowerHex (hex32_ne_nil n) (hex32_chars n), hexFold_hex32 hn]
  have hn2 : n < 340282366920938463463374607431768211456 := by
    have h2 : (2 : Nat) ^ 128 = 340282366920938463463374607431768211456 := by
      norm_num
    omega
  simp [hn2]

theorem pyUuidParse_hex32 {n : Nat} (hn : n < 2 ^ 128) :
    pyUuidParse (hex32 n) = some n := by
  apply pyUuidParse_of_stages hn
  rw [replaceAll_of_missing (t := ['u','r','n',':']) (c := ':') (by decide)
      (hex32_notMem (by decide)),
    replaceAll_of_missing (t := ['u','u','i','d',':']) (c := ':') (by decide)
      (hex32_notMem (by decide)),
    stripBy_eq_self_of_all (fun c hc =>
      braceP_false_of_lowerHex (hex32_chars n c hc))]
  apply List.filter_eq_self.mpr
  intro a ha
  simpa using lowerHex_ne (hex32_chars n a ha) '-' (by decide)

theorem pyUuidParse_hyph {n : Nat} (hn : n < 2 ^ 128) :
    pyUuidParse (uuidHyph n) = some n := by
  apply pyUuidParse_of_stages hn
  rw [replaceAll_of_missing (t := ['u','r','n',':']) (c := ':') (by decide)
      (uuidHyph_notMem (by decide) (by decide)),
    replaceAll_of_missing (t := ['u','u','i','d',':']) (c := ':') (by decide)
      (uuidHyph_notMem (by decide) (by decide)),
    stripBy_eq_self_of_all (braceP_false_of_hyph n), filter_hyph]

theorem pyUuidParse_braced {n : Nat} (hn : n < 2 ^ 128) :
    pyUuidParse (uuidBraced n) = some n := by
  apply pyUuidParse_of_stages hn
  have hb : uuidBraced n = '\x7b' :: (uuidHyph n ++ ['\x7d']) := by
    unfold uuidBraced
    rfl
  rw [hb]
  have hcolon : (':' : Char) ∉ '\x7b' :: (uuidHyph n ++ ['\x7d']) := by
    intro hm
    simp only [List.mem_cons, List.mem_append, List.mem_singleton] at hm
    rcases hm with hm | hm | hm
    · exact absurd hm (by decide)
    · exact uuidHyph_notMem (by decide) (by decide) hm
    · exact absurd hm (by decide)
  rw [replaceAll_of_missing (t := ['u','r','n',':']) (c := ':') (by decide) hcolon,
    replaceAll_of_missing (t := ['u','u','i','d',':']) (c := ':') (by decide) hcolon,
    stripBy_sandwich (uuidHyph_ne_nil n) (by decide) (by decide)
      (braceP_false_of_hyph n), filter_hyph]

theorem pyUuidParse_urn {n : Nat} (hn : n < 2 ^ 128) :
    pyUuidParse (uuidUrn n) = some n := by
  apply pyUuidParse_of_stages hn
  have hu : uuidUrn n =
      (['u','r','n',':'] : Str) ++ ((['u','u','i','d',':'] : Str) ++ uuidHyph n) := by
    unfold uuidUrn
    rfl
  rw [hu]
  rw [replaceAll_cons_self (by decide)]
  have hr : ('r' : Char) ∉ (['u','u','i','d',':'] : Str) ++ uuidHyph n := by
    intro hm
    simp only [List.mem_append] at hm
    rcases hm with hm | hm
    · simp at hm
    · exact uuidHyph_notMem (by decide) (by decide) hm
  rw [replaceAll_of_missing (t := ['u','r','n',':']) (c := 'r') (by decide) hr]
  rw [replaceAll_cons_self (by decide)]
  rw [replaceAll_of_missing (t := ['u','u','i','d',':']) (c := ':') (by decide)
    (uuidHyph_notMem (by decide) (by decide))]
  rw [stripBy_eq_self_of_all (braceP_false_of_hyph n), filter_hyph]

theorem repo_update_of_get {st : RepoState} {i : Uuid} {e : ToDoEntryData}
    (h : Repo.get_to_do_entry st i = some e) (p : TodoUpdateEntry) :
    ∃ st2, Repo.update_to_do st i p = some (st2, e.update p) := by
  induction st with
  | nil => simp [Repo.get_to_do_entry] at h
  | cons a rest ih =>
    by_cases hp : (a.id == i && !a.deleted) = true
    · rw [Repo.get_to_do_entry, List.find?_cons_of_pos rest hp] at h
      cases h
      exact ⟨e.update p :: rest, by simp [Repo.update_to_do, hp]⟩
    · rw [Repo.get_to_do_entry, List.find?_cons_of_neg rest hp] at h
      obtain ⟨st2, hst2⟩ := ih h
      exact ⟨a :: st2, by simp [Repo.update_to_do, hp, hst2]⟩

theorem repo_update_preserves {st st2 : RepoState} {i : Uuid}
    {p : TodoUpdateEntry} {e2 : ToDoEntryData}
    (h : Repo.update_to_do st i p = some (st2, e2)) :
    st2.map (fun e => (e.created_at, e.updated_at)) =
      st.map (fun e => (e.created_at, e.updated_at)) := by
  induction st generalizing st2 with
  | nil => simp [Repo.update_to_do] at h
  | cons a rest ih =>
    by_cases hp : (a.id == i && !a.deleted) = true
    · rw [Repo.update_to_do, if_pos hp] at h
      cases h
      simp [ToDoEntryData.update]
    · rw [Repo.update_to_do, if_neg hp] at h
      rcases hrec : Repo.update_to_do rest i p with _ | ⟨st3, e3⟩
      · rw [hrec] at h
        cases h
      · rw [hrec] at h
        cases h
        simp [ih hrec]

theorem repo_delete_of_get {st : RepoState} {i : Uuid} {e : ToDoEntryData}
    (h : Repo.get_to_do_entry st i = some e) :
    ∃ st2, Repo.delete_to_do st i = (st2, true) := by
  induction st with
  | nil => simp [Repo.get_to_do_entry] at h
  | cons a rest ih =>
    by_cases hp : (a.id == i && !a.deleted) = true
    · exact ⟨{ a with deleted := true } :: rest, by simp [Repo.delete_to_do, hp]⟩
    · rw [Repo.get_to_do_entry, List.find?_cons_of_neg rest hp] at h
      obtain ⟨st2, hst2⟩ := ih h
      exact ⟨a :: st2, by simp [Repo.delete_to_do, hp, hst2]⟩

theorem repo_delete_of_get_none {st : RepoState} {i : Uuid}
    (h : Repo.get_to_do_entry st i = none) :
    Repo.delete_to_do st i = (st, false) := by
  induction st with
  | nil => simp [Repo.delete_to_do]
  | cons a rest ih =>
    by_cases hp : (a.id == i && !a.deleted) = true
    · rw [Repo.get_to_do_entry, List.find?_cons_of_pos rest hp] at h
      cases h
    · rw [Repo.get_to_do_entry, List.find?_cons_of_neg rest hp] at h
      simp [Repo.delete_to_do, hp, ih h]

theorem repo_delete_preserves {st st2 : RepoState} {i : Uuid} {b : Bool}
    (h : Repo.delete_to_do st i = (st2, b)) :
    st2.map (fun e => (e.created_at, e.updated_at)) =
      st.map (fun e => (e.created_at, e.updated_at)) := by
  induction st generalizing st2 b with
  | nil =>
    simp [Repo.delete_to_do] at h
    simp [h.1]
  | cons a rest ih =>
    by_cases hp : (a.id == i && !a.deleted) = true
    · rw [Repo.delete_to_do, if_pos hp] at h
      cases h
      simp
    · rw [Repo.delete_to_do, if_neg hp] at h
      rcases hrec : Repo.delete_to_do rest i with ⟨st3, b3⟩
      rw [hrec] at h
      cases h
      simp [ih hrec]

theorem repo_get_none_after_delete {st st2 : RepoState} {i : Uuid}
    (hnd : (st.map ToDoEntryData.id).Nodup)
    (h : Repo.delete_to_do st i = (st2, true)) :
    Repo.get_to_do_entry st2 i = none := by
  induction st generalizing st2 with
  | nil => simp [Repo.delete_to_do] at h
  | cons a rest ih =>
    rw [List.map_cons, List.nodup_cons] at hnd
    by_cases hp : (a.id == i && !a.deleted) = true
    · rw [Repo.delete_to_do, if_pos hp] at h
      cases h
      rw [Bool.and_eq_true, beq_iff_eq] at hp
      rw [Repo.get_to_do_entry, List.find?_cons_of_neg rest (by simp)]
      rw [List.find?_eq_none]
      intro e he
      rw [Bool.and_eq_true, beq_iff_eq]
      rintro ⟨hei, _⟩
      apply hnd.1
      have hid : e.id = a.id := by rw [hei, hp.1]
      rw [← hid]
      exact List.mem_map_of_mem ToDoEntryData.id he
    · rw [Repo.delete_to_do, if_neg hp] at h
      rcases hrec : Repo.delete_to_do rest i with ⟨st3, b3⟩
      rw [hrec] at h
      cases h
      rw [Repo.get_to_do_entry, List.find?_cons_of_neg st3 hp]
      exact ih hnd.2 hrec

theorem ebind_ok {α β : Type} (a : α) (f : α → Except SvcError β) :
    ((Except.ok a : Except SvcError α) >>= f) = f a := rfl

theorem ebind_err {α β : Type} (e : SvcError) (f : α → Except SvcError β) :
    ((Except.error e : Except SvcError α) >>= f) =
      (Except.error e : Except SvcError β) := rfl

theorem epure {α : Type} (a : α) :
    (pure a : Except SvcError α) = Except.ok a := rfl

theorem emapErr_ok {α : Type} (a : α) (f : SvcError → SvcError) :
    (Except.ok a : Except SvcError α).mapError f = Except.ok a := rfl

theorem emapErr_err {α : Type} (e : SvcError) (f : SvcError → SvcError) :
    (Except.error e : Except SvcError α).mapError f = Except.error (f e) := rfl

theorem update_todo_ok_shape {st : RepoState} {i : Uuid} {p : TodoUpdateEntry}
    {t1 d1 : Option Str} {st2 : RepoState} {e2 : ToDoEntryData} {sch : ToDoSchema}
    (ht : sanitize_text p.title = Except.ok t1)
    (hd : sanitize_text p.description = Except.ok d1)
    (hr : Repo.update_to_do st i { p with title := t1, description := d1 } =
      some (st2, e2))
    (hs : ToDoSchema.model_validate e2 = some sch) :
    ToDoService.update_todo st i p = Except.ok (st2, sch) := by
  unfold ToDoService.update_todo ToDoService.update_todo_try
  rw [ht, hd]
  simp only [ebind_ok, hr, hs, epure]
  rfl


theorem update_todo_ok_inv {st : RepoState} {i : Uuid} {p : TodoUpdateEntry}
    {st2 : RepoState} {sch : ToDoSchema}
    (h : ToDoService.update_todo st i p = Except.ok (st2, sch)) :
    ∃ t1 d1 e2,
      Repo.update_to_do st i { p with title := t1, description := d1 } =
        some (st2, e2) ∧ ToDoSchema.model_validate e2 = some sch := by
  unfold ToDoService.update_todo at h
  generalize hin : ToDoService.update_todo_try st i p = inner at h
  rcases inner with e | v
  · simp [Except.mapError] at h
  · simp [Except.mapError] at h
    subst h
    unfold ToDoService.update_todo_try at hin
    simp only [bind, Except.bind] at hin
    split at hin
    · cases hin
    · rename_i t1 hts
      split at hin
      · cases hin
      · rename_i d1 hds
        split at hin
        · cases hin
        · rename_i st3 e3 hr
          split at hin
          · cases hin
          · rename_i sch3 hs
            rw [epure] at hin
            cases hin
            exact ⟨t1, d1, e3, hr, hs⟩

theorem get_todo_ok_inv {st : RepoState} {inp : Sum Uuid Str} {sch : ToDoSchema}
    (h : ToDoService.get_todo st inp = Except.ok sch) :
    ∃ e, ToDoSchema.model_validate e = some sch := by
  unfold ToDoService.get_todo at h
  simp only [bind, Except.bind] at h
  split at h
  · cases h
  · split at h
    · cases h
    · split at h
      · cases h
      · rename_i sch2 hs
        rw [epure] at h
        cases h
        exact ⟨_, hs⟩

theorem create_todo_ok_inv {st : RepoState} {now : Nat} {p : ToDoCreateEntry}
    {st2 : RepoState} {sch : ToDoSchema}
    (h : ToDoService.create_todo st now p = Except.ok (st2, sch)) :
    ∃ e2, ToDoSchema.model_validate e2 = some sch := by
  unfold ToDoService.create_todo at h
  generalize hin : ToDoService.create_todo_try st now p = inner at h
  rcases inner with e | v
  · simp [Except.mapError] at h
  · simp [Except.mapError] at h
    subst h
    unfold ToDoService.create_todo_try at hin
    simp only [bind, Except.bind] at hin
    split at hin
    · cases hin
    · split at hin
      · cases hin
      · split at hin
        · cases hin
        · split at hin
          · cases hin
          · split at hin
            · cases hin
            · rename_i hs
              rw [epure] at hin
              cases hin
              exact ⟨_, hs⟩

theorem model_validate_nonempty {e : ToDoEntryData} {sch : ToDoSchema}
    (h : ToDoSchema.model_validate e = some sch) :
    sch.title ≠ [] ∧ sch.description ≠ [] := by
  unfold ToDoSchema.model_validate at h
  split at h
  · split at h
    · cases h
    · split at h
      · cases h
      · cases h
        constructor
        · intro hcon
          simp at hcon
          exact absurd hcon (by assumption)
        · intro hcon
          simp at hcon
          exact absurd hcon (by assumption)
  · cases h

theorem model_validate_bad_description {e : ToDoEntryData}
    (h : e.description = none ∨ ∃ d, e.description = some d ∧ pyStrip d = []) :
    ToDoSchema.model_validate e = none := by
  unfold ToDoSchema.model_validate
  split
  · rename_i tv dv cav htv hdv hcav
    rcases h with h | ⟨d2, hd2, hstrip⟩
    · rw [h] at hdv
      cases hdv
    · rw [hd2] at hdv
      cases hdv
      split
      · rfl
      · rfl
  · rfl

theorem delete_todo_invalid {st : RepoState} {s : Str}
    (hs : pyUuidParse s = none) :
    ToDoService.delete_todo st (Sum.inr s) = Except.error SvcError.repoErr := by
  unfold ToDoService.delete_todo
  have hv : validate_uuid (Sum.inr s) =
      Except.error (SvcError.validation (uuidErrMsg s)) := by
    unfold validate_uuid
    dsimp only
    rw [hs]
  rw [hv]

theorem delete_todo_success {st : RepoState} {u : Uuid} {e : ToDoEntryData}
    (hget : Repo.get_to_do_entry st u = some e) :
    ToDoService.delete_todo st (Sum.inl u) =
      Except.ok ((Repo.delete_to_do st u).1, true) := by
  obtain ⟨st2, hdel⟩ := repo_delete_of_get hget
  unfold ToDoService.delete_todo
  rw [show validate_uuid (Sum.inl u) = Except.ok u from rfl]
  dsimp only
  rw [hdel]

theorem delete_todo_notFound {st : RepoState} {u : Uuid}
    (hget : Repo.get_to_do_entry st u = none) :
    ToDoService.delete_todo st (Sum.inl u) = Except.error SvcError.notFound := by
  unfold ToDoService.delete_todo
  rw [show validate_uuid (Sum.inl u) = Except.ok u from rfl]
  dsimp only
  rw [repo_delete_of_get_none hget]

/-- C4: the input sanitizer rejects — with the fixed `ToDoValidationError`
message — every string that contains one of the operator tokens `--`, `;`,
`/*`, `*/` anywhere, or one of the keywords (including `or`) as a whole
word, case-insensitively; and it accepts every string containing neither —
in particular one whose keywords occur only inside longer words — returning
it stripped of surrounding whitespace. -/
theorem InputSanitizer_validate_rejects_injection_accepts_rest :
    (∀ s : Str,
      ((∃ t ∈ opTokens, HasSeq t (lowerStr s)) ∨
        (∃ k ∈ kwSanitizer, HasWord k (lowerStr s))) →
      InputSanitizer.validate (some s) =
        Except.error (SvcError.validation (injMsg s))) ∧
    (∀ s : Str,
      (∀ t ∈ opTokens, ¬HasSeq t (lowerStr s)) →
      (∀ k ∈ kwSanitizer, ¬HasWord k (lowerStr s)) →
      InputSanitizer.validate (some s) = Except.ok (some (pyStrip s))) := by
  constructor
  · intro s hmatch
    unfold InputSanitizer.validate
    dsimp only
    rw [if_pos ((sqlInj_true_iff kwSanitizer_ne_nil).mpr hmatch)]
  · intro s hop hkw
    unfold InputSanitizer.validate
    dsimp only
    rw [if_neg (by
      rw [(sqlInj_false_iff kwSanitizer_ne_nil).mpr ⟨hop, hkw⟩]
      simp)]

/-- Witness for C4: the isolated keyword `update` is rejected while
`updated` (keyword only as a proper substring) is accepted and stripped. -/
theorem InputSanitizer_validate_witness :
    InputSanitizer.validate (some (['u','p','d','a','t','e'])) =
      Except.error (SvcError.validation (injMsg (['u','p','d','a','t','e']))) ∧
    InputSanitizer.validate (some ([' ','u','p','d','a','t','e','d'])) =
      Except.ok (some (['u','p','d','a','t','e','d'])) := by
  constructor
  · exact InputSanitizer_validate_rejects_injection_accepts_rest.1
      (['u','p','d','a','t','e'])
      (Or.inr ⟨['u','p','d','a','t','e'], by decide,
        ⟨[], [], by decide, by intro c hc; simp at hc,
          by intro c hc; simp at hc⟩⟩)
  · have h := InputSanitizer_validate_rejects_injection_accepts_rest.2
      ([' ','u','p','d','a','t','e','d'])
    have hfalse : sqlInj kwSanitizer ([' ','u','p','d','a','t','e','d']) = false := by
      decide
    have hc := (sqlInj_false_iff kwSanitizer_ne_nil).mp hfalse
    have h2 := h hc.1 hc.2
    rw [h2]
    rfl

/-- C10: sanitization is idempotent on accepted inputs — for a string
without injection patterns the sanitizer succeeds returning the stripped
string, and sanitizing that output returns it unchanged, so
`sanitize(sanitize(s)) = sanitize(s)`. -/
theorem InputSanitizer_validate_idempotent :
    ∀ s : Str, sqlInj kwSanitizer s = false →
      InputSanitizer.validate (some s) = Except.ok (some (pyStrip s)) ∧
      InputSanitizer.validate (some (pyStrip s)) =
        Except.ok (some (pyStrip s)) := by
  intro s hs
  constructor
  · unfold InputSanitizer.validate
    dsimp only
    rw [if_neg (by rw [hs]; simp)]
  · unfold InputSanitizer.validate
    dsimp only
    rw [if_neg (by rw [sqlInj_pyStrip_false kwSanitizer_ne_nil hs]; simp)]
    rw [show pyStrip (pyStrip s) = pyStrip s from stripBy_idem isPySpace s]

/-- Witness for C10 at a concrete accepted input. -/
theorem InputSanitizer_validate_idempotent_witness :
    InputSanitizer.validate (some ([' ','h','i',' '])) =
      Except.ok (some (['h','i'])) ∧
    InputSanitizer.validate (some (['h','i'])) =
      Except.ok (some (['h','i'])) := by
  have h := InputSanitizer_validate_idempotent ([' ','h','i',' ']) (by decide)
  exact ⟨h.1.trans (by rfl), by
    have h2 := h.2
    rw [show pyStrip ([' ','h','i',' ']) = (['h','i']) from by decide] at h2
    exact h2⟩

/-- C7: whenever the sanitized form of a value is empty or `None`,
`validate_required` raises a `ToDoValidationError` whose message contains
`<field_name> is required` while `validate_optional` returns the empty
string without error; and a value matching an injection pattern makes both
paths raise the identical validation error. -/
theorem FieldValidator_required_vs_optional :
    (∀ (v : Option Str) (fieldName : Str) (res : Option Str),
      InputSanitizer.validate v = Except.ok res →
      pyTruthyOptStr res = false →
      (FieldValidator.validate_required v fieldName =
        Except.error (SvcError.validation (reqMsg fieldName)) ∧
      HasSeq (fieldName ++ (r" is required").toList) (reqMsg fieldName) ∧
      FieldValidator.validate_optional v = Except.ok [])) ∧
    (∀ (s : Str) (fieldName : Str),
      sqlInj kwSanitizer s = true →
      FieldValidator.validate_required (some s) fieldName =
        Except.error (SvcError.validation (injMsg s)) ∧
      FieldValidator.validate_optional (some s) =
        Except.error (SvcError.validation (injMsg s))) := by
  constructor
  · intro v fieldName res hv htr
    refine ⟨?_, ⟨(r"Invalid payload: ").toList, [], by simp [reqMsg]⟩, ?_⟩
    · unfold FieldValidator.validate_required
      rw [hv]
      dsimp only
      rw [if_neg (by rw [htr]; simp)]
    · unfold FieldValidator.validate_optional
      rw [hv]
      dsimp only
      rw [if_neg (by rw [htr]; simp)]
  · intro s fieldName hs
    have hv : InputSanitizer.validate (some s) =
        Except.error (SvcError.validation (injMsg s)) := by
      unfold InputSanitizer.validate
      dsimp only
      rw [if_pos hs]
    exact ⟨by unfold FieldValidator.validate_required; rw [hv],
      by unfold FieldValidator.validate_optional; rw [hv]⟩

/-- Witness for C7: the empty title is rejected as required (message
containing `title is required`) and accepted as optional; a `;` makes both
paths fail identically. -/
theorem FieldValidator_required_vs_optional_witness :
    (FieldValidator.validate_required (some []) (['t','i','t','l','e']) =
      Except.error (SvcError.validation (reqMsg (['t','i','t','l','e'])))) ∧
    FieldValidator.validate_optional (some []) = Except.ok [] ∧
    FieldValidator.validate_required (some [';']) (['t','i','t','l','e']) =
      Except.error (SvcError.validation (injMsg ([';']))) ∧
    FieldValidator.validate_optional (some [';']) =
      Except.error (SvcError.validation (injMsg ([';']))) := by
  have h1 := FieldValidator_required_vs_optional.1 (some [])
    (['t','i','t','l','e']) (some []) (by rfl) (by decide)
  have h2 := FieldValidator_required_vs_optional.2 ([';'])
    (['t','i','t','l','e']) (by decide)
  exact ⟨h1.1, h1.2.2, h2.1, h2.2⟩

/-- C8: for every 128-bit value, the hyphenated, non-hyphenated, braced and
URN-prefixed string forms all validate to that same UUID value; a value that
is already a UUID passes through unchanged; and a string whose parse fails
raises a `ToDoValidationError`. -/
theorem UUIDValidator_validate_forms :
    (∀ n : Nat, n < 2 ^ 128 →
      UUIDValidator.validate (Sum.inr (hex32 n)) = Except.ok n ∧
      UUIDValidator.validate (Sum.inr (uuidHyph n)) = Except.ok n ∧
      UUIDValidator.validate (Sum.inr (uuidBraced n)) = Except.ok n ∧
      UUIDValidator.validate (Sum.inr (uuidUrn n)) = Except.ok n) ∧
    (∀ u : Uuid, UUIDValidator.validate (Sum.inl u) = Except.ok u) ∧
    (∀ s : Str, pyUuidParse s = none →
      UUIDValidator.validate (Sum.inr s) =
        Except.error (SvcError.validation (uuidErrMsg s))) := by
  refine ⟨?_, fun u => rfl, ?_⟩
  · intro n hn
    refine ⟨?_, ?_, ?_, ?_⟩ <;>
      (unfold UUIDValidator.validate; dsimp only)
    · rw [pyUuidParse_hex32 hn]
    · rw [pyUuidParse_hyph hn]
    · rw [pyUuidParse_braced hn]
    · rw [pyUuidParse_urn hn]
  · intro s hs
    unfold UUIDValidator.validate
    dsimp only
    rw [hs]

/-- Witness for C8 at the concrete UUID value
`12345678-1234-5678-1234-567812345678`. -/
theorem UUIDValidator_validate_forms_witness :
    24197857161011715162171839636988778104 < 2 ^ 128 ∧
    UUIDValidator.validate
        (Sum.inr (uuidHyph 24197857161011715162171839636988778104)) =
      Except.ok 24197857161011715162171839636988778104 :=
  ⟨by norm_num,
    (UUIDValidator_validate_forms.1 24197857161011715162171839636988778104
      (by norm_num)).2.1⟩

/-- C6: the builder is all-or-nothing with a fixed order — a `None` payload
raises `payload cannot be None`; an absent id raises `id is required`
regardless of the other fields (before any validator call); then the id,
the required title and the optional description are validated in that
order, the first failure aborting; on full success the entry carries the
validated fields, `created_at` equal to the single captured timestamp,
no `updated_at`, and false flags. -/
theorem ToDoEntryBuilder_build_contract :
    (∀ now : Nat, ToDoEntryBuilder.build_from_create_schema now none =
      Except.error (SvcError.validation
        ((r"Invalid payload: payload cannot be None").toList))) ∧
    (∀ (now : Nat) (p : ToDoCreateScheme), p.id = none →
      ToDoEntryBuilder.build_from_create_schema now (some p) =
        Except.error (SvcError.validation (reqMsg (['i','d'])))) ∧
    (∀ (now : Nat) (p : ToDoCreateScheme) (idv : Sum Uuid Str) (e : SvcError),
      p.id = some idv → UUIDValidator.validate idv = Except.error e →
      ToDoEntryBuilder.build_from_create_schema now (some p) =
        Except.error e) ∧
    (∀ (now : Nat) (p : ToDoCreateScheme) (idv : Sum Uuid Str) (u : Uuid)
        (e : SvcError),
      p.id = some idv → UUIDValidator.validate idv = Except.ok u →
      FieldValidator.validate_required p.title (['t','i','t','l','e']) =
        Except.error e →
      ToDoEntryBuilder.build_from_create_schema now (some p) =
        Except.error e) ∧
    (∀ (now : Nat) (p : ToDoCreateScheme) (idv : Sum Uuid Str) (u : Uuid)
        (t : Str) (e : SvcError),
      p.id = some idv → UUIDValidator.validate idv = Except.ok u →
      FieldValidator.validate_required p.title (['t','i','t','l','e']) =
        Except.ok t →
      FieldValidator.validate_optional p.description = Except.error e →
      ToDoEntryBuilder.build_from_create_schema now (some p) =
        Except.error e) ∧
    (∀ (now : Nat) (p : ToDoCreateScheme) (idv : Sum Uuid Str) (u : Uuid)
        (t d : Str),
      p.id = some idv → UUIDValidator.validate idv = Except.ok u →
      FieldValidator.validate_required p.title (['t','i','t','l','e']) =
        Except.ok t →
      FieldValidator.validate_optional p.description = Except.ok d →
      ToDoEntryBuilder.build_from_create_schema now (some p) =
        Except.ok { id := u, title := some t, description := some d,
                    created_at := some now, updated_at := none,
                    deleted := false, done := false }) := by
  refine ⟨fun now => rfl, ?_, ?_, ?_, ?_, ?_⟩
  · intro now p hp
    unfold ToDoEntryBuilder.build_from_create_schema
    dsimp only
    rw [hp]
    rfl
  · intro now p idv e hp hv
    unfold ToDoEntryBuilder.build_from_create_schema
    dsimp only
    rw [hp]
    dsimp only
    rw [hv, ebind_err]
  · intro now p idv u e hp hv ht
    unfold ToDoEntryBuilder.build_from_create_schema
    dsimp only
    rw [hp]
    dsimp only
    rw [hv, ebind_ok, ht, ebind_err]
  · intro now p idv u t e hp hv ht hd
    unfold ToDoEntryBuilder.build_from_create_schema
    dsimp only
    rw [hp]
    dsimp only
    rw [hv, ebind_ok, ht, ebind_ok, hd, ebind_err]
  · intro now p idv u t d hp hv ht hd
    unfold ToDoEntryBuilder.build_from_create_schema
    dsimp only
    rw [hp]
    dsimp only
    rw [hv, ebind_ok, ht, ebind_ok, hd, ebind_ok]
    rfl

/-- Witness for C6: a successful build from a concrete payload, and the
absent-id rejection. -/
theorem ToDoEntryBuilder_build_contract_witness :
    ToDoEntryBuilder.build_from_create_schema 7
        (some { id := some (Sum.inl 5), title := some (['H','i']),
                description := none }) =
      Except.ok { id := 5, title := some (['H','i']),
                  description := some [], created_at := some 7,
                  updated_at := none, deleted := false, done := false } ∧
    ToDoEntryBuilder.build_from_create_schema 7
        (some { id := none, title := some (['H','i']), description := none }) =
      Except.error (SvcError.validation (reqMsg (['i','d']))) := by
  constructor
  · exact ToDoEntryBuilder_build_contract.2.2.2.2.2 7
      { id := some (Sum.inl 5), title := some (['H','i']), description := none }
      (Sum.inl 5) 5 (['H','i']) [] rfl rfl (by rfl) (by rfl)
  · exact ToDoEntryBuilder_build_contract.2.1 7
      { id := none, title := some (['H','i']), description := none } rfl

/-- C1 (code bug): updating an entry whose `done` flag is false with a
partial payload `done=true` returns the entry with `done` STILL false and
the store unchanged — `ToDoEntryData.update` skips every attribute whose
current value is falsy (`if not getattr(self, key)`), so `done` can never
leave `false`, contradicting the mark-done contract. -/
theorem update_todo_mark_done_is_ignored :
    ToDoService.update_todo [markDoneEntry] 1 markDonePayload =
      Except.ok ([markDoneEntry],
        { id := 1, title := ['T','e','s','t'],
          description := ['D','e','s','c'], created_at := 0,
          updated_at := none, deleted := false, done := false }) := by
  rfl

/-- Counterexample for C2: deleting with an id that is not a valid UUID
raises `ToDoRepositoryError`, not `ToDoValidationError` — the
`ToDoValidationError` from the inline `validate_uuid` call is caught by the
catch-all `except Exception` handler and wrapped. -/
theorem delete_todo_invalid_uuid_counterexample :
    ToDoService.delete_todo [delEntry]
        (Sum.inr (['n','o','t','-','a','-','u','u','i','d'])) =
      Except.error SvcError.repoErr := by
  apply delete_todo_invalid
  unfold pyUuidParse
  dsimp only
  rw [replaceAll_of_missing (t := ['u','r','n',':']) (c := ':') (by decide)
      (by decide),
    replaceAll_of_missing (t := ['u','u','i','d',':']) (c := ':') (by decide)
      (by decide)]
  rfl

/-- C2 as amended: an invalid id yields `RepositoryError` (the validation
error is swallowed by the catch-all); a valid id whose entry is absent or
already soft-deleted raises `NotFound`; a successful delete returns `true`;
and, for stores with unique ids, deleting twice yields `true` then
`NotFound`. -/
theorem delete_todo_amended_contract :
    (∀ (st : RepoState) (s : Str), pyUuidParse s = none →
      ToDoService.delete_todo st (Sum.inr s) =
        Except.error SvcError.repoErr) ∧
    (∀ (st : RepoState) (u : Uuid), Repo.get_to_do_entry st u = none →
      ToDoService.delete_todo st (Sum.inl u) =
        Except.error SvcError.notFound) ∧
    (∀ (st : RepoState) (u : Uuid) (e : ToDoEntryData),
      (st.map ToDoEntryData.id).Nodup →
      Repo.get_to_do_entry st u = some e →
      ToDoService.delete_todo st (Sum.inl u) =
        Except.ok ((Repo.delete_to_do st u).1, true) ∧
      ToDoService.delete_todo (Repo.delete_to_do st u).1 (Sum.inl u) =
        Except.error SvcError.notFound) := by
  refine ⟨fun st s hs => delete_todo_invalid hs,
    fun st u hg => delete_todo_notFound hg, ?_⟩
  intro st u e hnd hget
  refine ⟨delete_todo_success hget, ?_⟩
  have hdel : Repo.delete_to_do st u = ((Repo.delete_to_do st u).1, true) := by
    obtain ⟨st2, h2⟩ := repo_delete_of_get hget
    rw [h2]
  exact delete_todo_notFound (repo_get_none_after_delete hnd hdel)

/-- Witness for C2 as amended: double delete on a one-entry store. -/
theorem delete_todo_amended_contract_witness :
    ToDoService.delete_todo [delEntry] (Sum.inl 1) =
      Except.ok ((Repo.delete_to_do [delEntry] 1).1, true) ∧
    ToDoService.delete_todo (Repo.delete_to_do [delEntry] 1).1 (Sum.inl 1) =
      Except.error SvcError.notFound :=
  delete_todo_amended_contract.2.2 [delEntry] 1 delEntry (by simp) (by rfl)

/-- C3: a partial payload carrying only a title updates the title and
leaves the stored description untouched: for a stored entry with a truthy
title, a non-empty stored description and a creation timestamp, updating
with only a sanitizable non-blank title returns the representation with the
new (stripped) title and the original description, and the updated stored
entry keeps its description field unchanged. -/
theorem update_todo_partial_title_frame
    (st : RepoState) (i : Uuid) (e : ToDoEntryData) (nt d : Str) (ca : Nat)
    (hget : Repo.get_to_do_entry st i = some e)
    (htitle : pyTruthyOptStr e.title = true)
    (hdesc : e.description = some d)
    (hdne : pyStrip d ≠ [])
    (hca : e.created_at = some ca)
    (hsan : sqlInj kwService nt = false)
    (hnt : pyStrip nt ≠ []) :
    (ToDoService.update_todo st i { id := i, title := some nt }).map
        (fun r => r.2) =
      Except.ok { id := i, title := pyStrip nt, description := pyStrip d,
                  created_at := ca, updated_at := e.updated_at,
                  deleted := e.deleted, done := e.done } ∧
    (e.update { id := i, title := some (pyStrip nt) }).description =
      e.description ∧
    (e.update { id := i, title := some (pyStrip nt) }).title =
      some (pyStrip nt) := by
  have hsant : sanitize_text (some nt) = Except.ok (some (pyStrip nt)) := by
    unfold sanitize_text
    dsimp only
    rw [if_neg (by rw [hsan]; simp)]
  have he2 : e.update { id := i, title := some (pyStrip nt) } =
      { id := i, title := some (pyStrip nt), description := some d,
        created_at := e.created_at, updated_at := e.updated_at,
        deleted := e.deleted, done := e.done } := by
    unfold ToDoEntryData.update
    dsimp only
    rw [htitle, hdesc]
    rfl
  obtain ⟨st2, hr⟩ :=
    repo_update_of_get hget { id := i, title := some (pyStrip nt) }
  have hval : ToDoSchema.model_validate
      (e.update { id := i, title := some (pyStrip nt) }) =
      some { id := i, title := pyStrip nt, description := pyStrip d,
             created_at := ca, updated_at := e.updated_at,
             deleted := e.deleted, done := e.done } := by
    rw [he2]
    unfold ToDoSchema.model_validate
    dsimp only
    rw [hca]
    dsimp only
    rw [show pyStrip (pyStrip nt) = pyStrip nt from stripBy_idem isPySpace nt]
    rw [if_neg hnt, if_neg hdne]
  have hshape : ToDoService.update_todo st i { id := i, title := some nt } =
      Except.ok (st2,
        { id := i, title := pyStrip nt, description := pyStrip d,
          created_at := ca, updated_at := e.updated_at,
          deleted := e.deleted, done := e.done }) :=
    update_todo_ok_shape hsant rfl hr hval
  refine ⟨?_, ?_, ?_⟩
  · rw [hshape]
    rfl
  · rw [he2, hdesc]
  · rw [he2]

/-- Witness for C3 at a concrete store: `title="A", description="B"`,
updating with `title="C"`. -/
theorem update_todo_partial_title_frame_witness :
    (ToDoService.update_todo [frameEntry] 1
        { id := 1, title := some (['C']) }).map (fun r => r.2) =
      Except.ok { id := 1, title := pyStrip (['C']),
                  description := pyStrip (['B']), created_at := 3,
                  updated_at := frameEntry.updated_at,
                  deleted := frameEntry.deleted, done := frameEntry.done } ∧
    (frameEntry.update { id := 1, title := some (pyStrip (['C'])) }).description =
      frameEntry.description ∧
    (frameEntry.update { id := 1, title := some (pyStrip (['C'])) }).title =
      some (pyStrip (['C'])) :=
  update_todo_partial_title_frame [frameEntry] 1 frameEntry (['C']) (['B']) 3
    (by rfl) (by decide) (by rfl) (by decide) (by rfl) (by decide) (by decide)

/-- Counterexample for C5: a successful generic update leaves `updated_at`
unset (`None`) — no code path writes `updated_at` on mutation. -/
theorem update_todo_does_not_set_updated_at :
    ToDoService.update_todo [tsEntry] 1 { id := 1, title := some (['C']) } =
      Except.ok ([{ tsEntry with title := some (['C']) }],
        { id := 1, title := ['C'], description := ['B'], created_at := 5,
          updated_at := none, deleted := false, done := false }) := by
  rfl

/-- C5 as amended: `created_at` never changes after creation, and
`updated_at` is likewise left unchanged by every successful mutation — the
update applies only payload fields (which never include timestamps) and the
delete only flips the deleted flag, so neither timestamp is ever written. -/
theorem mutations_preserve_timestamps :
    (∀ (st : RepoState) (i : Uuid) (p : TodoUpdateEntry) (st2 : RepoState)
        (sch : ToDoSchema),
      ToDoService.update_todo st i p = Except.ok (st2, sch) →
      st2.map (fun e => (e.created_at, e.updated_at)) =
        st.map (fun e => (e.created_at, e.updated_at))) ∧
    (∀ (st : RepoState) (inp : Sum Uuid Str) (st2 : RepoState) (b : Bool),
      ToDoService.delete_todo st inp = Except.ok (st2, b) →
      st2.map (fun e => (e.created_at, e.updated_at)) =
        st.map (fun e => (e.created_at, e.updated_at))) := by
  constructor
  · intro st i p st2 sch h
    obtain ⟨t1, d1, e2, hr, _⟩ := update_todo_ok_inv h
    exact repo_update_preserves hr
  · intro st inp st2 b h
    unfold ToDoService.delete_todo at h
    split at h
    · cases h
    · split at h
      · rename_i u hu st3 hdel
        cases h
        exact repo_delete_preserves hdel
      · cases h

/-- Witness for C5 as amended, at the concrete update of the
counterexample. -/
theorem mutations_preserve_timestamps_witness :
    ([{ tsEntry with title := some (['C']) }].map
        (fun e => (e.created_at, e.updated_at))) =
      ([tsEntry].map (fun e => (e.created_at, e.updated_at))) :=
  mutations_preserve_timestamps.1 [tsEntry] 1 { id := 1, title := some (['C']) }
    [{ tsEntry with title := some (['C']) }]
    { id := 1, title := ['C'], description := ['B'], created_at := 5,
      updated_at := none, deleted := false, done := false }
    (by rfl)

/-- C9: every representation returned by `create_todo`, `get_todo` or
`get_all_todos` has a non-empty title and a non-empty description; an
entry stored with an absent or blank description fails output validation,
so it is never returned (`get_all_todos` silently skips it). -/
theorem returned_schemas_have_nonempty_fields :
    (∀ (st : RepoState) (now : Nat) (p : ToDoCreateEntry) (st2 : RepoState)
        (sch : ToDoSchema),
      ToDoService.create_todo st now p = Except.ok (st2, sch) →
      sch.title ≠ [] ∧ sch.description ≠ []) ∧
    (∀ (st : RepoState) (inp : Sum Uuid Str) (sch : ToDoSchema),
      ToDoService.get_todo st inp = Except.ok sch →
      sch.title ≠ [] ∧ sch.description ≠ []) ∧
    (∀ (st : RepoState) (limit page : Nat) (sch : ToDoSchema),
      sch ∈ ToDoService.get_all_todos st limit page →
      sch.title ≠ [] ∧ sch.description ≠ []) ∧
    (∀ e : ToDoEntryData,
      e.description = none ∨ (∃ d, e.description = some d ∧ pyStrip d = []) →
      ToDoSchema.model_validate e = none) := by
  refine ⟨?_, ?_, ?_, fun e h => model_validate_bad_description h⟩
  · intro st now p st2 sch h
    obtain ⟨e2, hv⟩ := create_todo_ok_inv h
    exact model_validate_nonempty hv
  · intro st inp sch h
    obtain ⟨e, hv⟩ := get_todo_ok_inv h
    exact model_validate_nonempty hv
  · intro st limit page sch h
    unfold ToDoService.get_all_todos at h
    obtain ⟨e, _, hv⟩ := List.mem_filterMap.mp h
    exact model_validate_nonempty hv

/-- Witness for C9: in a store holding a well-formed entry and one with a
blank description, the listed representation has non-empty fields and the
blank-description entry fails output validation (and is skipped). -/
theorem returned_schemas_have_nonempty_fields_witness :
    (({ id := 2, title := ['T'], description := ['D'], created_at := 0,
        updated_at := none, deleted := false, done := false } :
        ToDoSchema).title ≠ [] ∧
      ({ id := 2, title := ['T'], description := ['D'], created_at := 0,
         updated_at := none, deleted := false, done := false } :
         ToDoSchema).description ≠ []) ∧
    ToDoSchema.model_validate listBadEntry = none := by
  constructor
  · exact returned_schemas_have_nonempty_fields.2.2.1 [listGoodEntry, listBadEntry]
      10 1
      { id := 2, title := ['T'], description := ['D'], created_at := 0,
        updated_at := none, deleted := false, done := false }
      (by decide)
  · exact returned_schemas_have_nonempty_fields.2.2.2 listBadEntry
      (Or.inr ⟨[], rfl, rfl⟩)
